import Mathlib

/-!
Verification development for the mite-tmn tick-activity monitor.

The Python sources under `src/` are embedded shallowly: dictionaries
of well-known shape become structures or association lists of `PyVal`,
`datetime.date` becomes `MDate`, machine-level floats never influence
the stated properties (where a trained regressor appears it is an
abstract parameter), and Python exceptions become `Except PyErr`.
Every definition is translated from the corresponding function in the
repository, except the few marked `Modelled from the spec:` (repository
methods that are called from `src/` but whose definitions are not in
`src/`) and the few marked as spec-side definitions used to compare a
claim's wording with the code.
-/

/-- Calendar date in the shape of Python's `datetime.date`: year, month, day. -/
structure MDate where
  year : Nat
  month : Nat
  day : Nat
deriving DecidableEq, Repr

/-- Gregorian leap year, Python's `calendar.isleap` rule. -/
def isLeap (y : Nat) : Bool :=
  (y % 4 == 0 && y % 100 != 0) || y % 400 == 0

/-- Number of days of month `m` in year `y` (months 1..12; other inputs unused). -/
def daysInMonth (y m : Nat) : Nat :=
  if m = 1 then 31
  else if m = 2 then (if isLeap y then 29 else 28)
  else if m = 3 then 31
  else if m = 4 then 30
  else if m = 5 then 31
  else if m = 6 then 30
  else if m = 7 then 31
  else if m = 8 then 31
  else if m = 9 then 30
  else if m = 10 then 31
  else if m = 11 then 30
  else 31

/-- Days before month `m` in a non-leap year. -/
def cumDaysBefore (m : Nat) : Nat :=
  if m = 1 then 0
  else if m = 2 then 31
  else if m = 3 then 59
  else if m = 4 then 90
  else if m = 5 then 120
  else if m = 6 then 151
  else if m = 7 then 181
  else if m = 8 then 212
  else if m = 9 then 243
  else if m = 10 then 273
  else if m = 11 then 304
  else 334

/-- One-based day of the year of a date. -/
def MDate.yday (d : MDate) : Nat :=
  cumDaysBefore d.month + d.day + (if 2 < d.month && isLeap d.year then 1 else 0)

/-- Proleptic-Gregorian day number, Python's `date.toordinal`
(0001-01-01 has number 1). -/
def MDate.toRata (d : MDate) : Int :=
  365 * ((d.year : Int) - 1) + ((d.year : Int) - 1) / 4 - ((d.year : Int) - 1) / 100
    + ((d.year : Int) - 1) / 400 + (d.yday : Int)

/-- Day of week with Monday = 0, Python's `date.weekday`. -/
def MDate.wdMon0 (d : MDate) : Nat :=
  ((d.toRata - 1) % 7).toNat

/-- Day of week with Sunday = 0 (the C `tm_wday` convention used by `%U`). -/
def MDate.wdSun0 (d : MDate) : Nat :=
  (d.wdMon0 + 1) % 7

/-- Well-formed calendar date: month in 1..12, day within the month.
(Python additionally bounds the year to 1..9999; all dates handled by the
program are far inside that range.) -/
def MDate.WellFormed (d : MDate) : Prop :=
  1 ≤ d.month ∧ d.month ≤ 12 ∧ 1 ≤ d.day ∧ d.day ≤ daysInMonth d.year d.month

instance (d : MDate) : Decidable d.WellFormed := by
  unfold MDate.WellFormed; infer_instance

/-- Strict lexicographic order on dates, Python's `date.__lt__`. -/
def MDate.ltB (a b : MDate) : Bool :=
  a.year < b.year ||
    (a.year == b.year && (a.month < b.month ||
      (a.month == b.month && a.day < b.day)))

/-- Order on dates, Python's `date.__le__`. -/
def MDate.leB (a b : MDate) : Bool :=
  a.ltB b || a == b

/-- Next calendar day. -/
def MDate.addOneDay (d : MDate) : MDate :=
  if d.day < daysInMonth d.year d.month then ⟨d.year, d.month, d.day + 1⟩
  else if d.month < 12 then ⟨d.year, d.month + 1, 1⟩
  else ⟨d.year + 1, 1, 1⟩

/-- Previous calendar day. -/
def MDate.subOneDay (d : MDate) : MDate :=
  if 1 < d.day then ⟨d.year, d.month, d.day - 1⟩
  else if 1 < d.month then ⟨d.year, d.month - 1, daysInMonth d.year (d.month - 1)⟩
  else ⟨d.year - 1, 12, 31⟩

/-- `d + timedelta(days=n)`. -/
def MDate.addDays (d : MDate) (n : Nat) : MDate :=
  MDate.addOneDay^[n] d

/-- `d - timedelta(days=n)`. -/
def MDate.subDays (d : MDate) (n : Nat) : MDate :=
  MDate.subOneDay^[n] d

/-- `strftime('%U')` week number: Sunday-started weeks, days before the
first Sunday of the year are week 0 (the C library convention
`(tm_yday + 7 - tm_wday) / 7` with a 0-based `tm_yday`). -/
def MDate.uWeek (d : MDate) : Nat :=
  (d.yday - 1 + 7 - d.wdSun0) / 7

/-- ISO day of week, Monday = 1 .. Sunday = 7. -/
def MDate.isoWday (d : MDate) : Nat :=
  d.wdMon0 + 1

/-- Number of ISO weeks (52 or 53) in year `y`. -/
def isoWeeksInYear (y : Nat) : Nat :=
  let jan1 := MDate.wdMon0 ⟨y, 1, 1⟩
  if jan1 = 3 || (isLeap y && jan1 = 2) then 53 else 52

/-- ISO-8601 week number of a date, Python's `date.isocalendar().week`. -/
def MDate.isoWeek (d : MDate) : Nat :=
  let w := (d.yday + 10 - d.isoWday) / 7
  if w = 0 then isoWeeksInYear (d.year - 1)
  else if isoWeeksInYear d.year < w then 1
  else w

/-- Sanity anchors for the day-number and week computations. -/
theorem date_anchors :
    MDate.toRata ⟨1, 1, 1⟩ = 1 ∧
    MDate.wdMon0 ⟨2024, 6, 10⟩ = 0 ∧
    MDate.wdMon0 ⟨2024, 6, 16⟩ = 6 ∧
    MDate.wdMon0 ⟨2020, 1, 1⟩ = 2 ∧
    MDate.uWeek ⟨2024, 6, 10⟩ = 23 ∧
    MDate.uWeek ⟨2024, 6, 16⟩ = 24 ∧
    MDate.uWeek ⟨2024, 6, 18⟩ = 24 ∧
    MDate.isoWeek ⟨2024, 6, 16⟩ = 24 ∧
    MDate.isoWeek ⟨2024, 6, 17⟩ = 25 ∧
    MDate.isoWeek ⟨2021, 1, 1⟩ = 53 := by
  decide

/-- Characterization of the strict date order. -/
theorem MDate.ltB_iff (a b : MDate) :
    a.ltB b = true ↔
      (a.year < b.year ∨ (a.year = b.year ∧
        (a.month < b.month ∨ (a.month = b.month ∧ a.day < b.day)))) := by
  simp [MDate.ltB]

/-- The strict date order is transitive. -/
theorem MDate.ltB_trans {a b c : MDate} (h1 : a.ltB b = true)
    (h2 : b.ltB c = true) : a.ltB c = true := by
  rw [MDate.ltB_iff] at h1 h2 ⊢
  omega

/-- Every month has at least one day. -/
theorem one_le_daysInMonth (y m : Nat) : 1 ≤ daysInMonth y m := by
  unfold daysInMonth
  repeat' split
  all_goals omega

/-- Stepping one day forward preserves well-formedness. -/
theorem MDate.wf_addOneDay {d : MDate} (h : d.WellFormed) :
    d.addOneDay.WellFormed := by
  obtain ⟨h1, h2, h3, h4⟩ := h
  have hd1 := one_le_daysInMonth d.year d.month
  unfold MDate.addOneDay
  split
  · refine ⟨?_, ?_, ?_, ?_⟩ <;> dsimp only <;> omega
  · split
    · refine ⟨?_, ?_, ?_, ?_⟩ <;> dsimp only
      · omega
      · omega
      · omega
      · exact one_le_daysInMonth _ _
    · refine ⟨?_, ?_, ?_, ?_⟩ <;> dsimp only
      · omega
      · omega
      · omega
      · exact one_le_daysInMonth _ _

/-- Stepping one day back preserves well-formedness. -/
theorem MDate.wf_subOneDay {d : MDate} (h : d.WellFormed) :
    d.subOneDay.WellFormed := by
  obtain ⟨h1, h2, h3, h4⟩ := h
  unfold MDate.subOneDay
  split
  · refine ⟨?_, ?_, ?_, ?_⟩ <;> dsimp only <;> omega
  · split
    · refine ⟨?_, ?_, ?_, ?_⟩ <;> dsimp only
      · omega
      · omega
      · exact one_le_daysInMonth _ _
      · exact le_refl _
    · refine ⟨?_, ?_, ?_, ?_⟩ <;> dsimp only
      · omega
      · omega
      · omega
      · show 31 ≤ daysInMonth (d.year - 1) 12
        unfold daysInMonth
        norm_num

/-- Stepping one day forward strictly increases the date. -/
theorem MDate.lt_addOneDay {d : MDate} (h : d.WellFormed) :
    d.ltB d.addOneDay = true := by
  obtain ⟨h1, h2, h3, h4⟩ := h
  unfold MDate.addOneDay
  split
  · rw [MDate.ltB_iff]; dsimp only; omega
  · split
    · rw [MDate.ltB_iff]; dsimp only; omega
    · rw [MDate.ltB_iff]; dsimp only; omega

/-- Adding days preserves well-formedness. -/
theorem MDate.wf_addDays {d : MDate} (h : d.WellFormed) (n : Nat) :
    (d.addDays n).WellFormed := by
  induction n with
  | zero => exact h
  | succ k ih =>
      have : d.addDays (k + 1) = (d.addDays k).addOneDay :=
        Function.iterate_succ_apply' _ _ _
      rw [this]
      exact MDate.wf_addOneDay ih

/-- Subtracting days preserves well-formedness. -/
theorem MDate.wf_subDays {d : MDate} (h : d.WellFormed) (n : Nat) :
    (d.subDays n).WellFormed := by
  induction n with
  | zero => exact h
  | succ k ih =>
      have : d.subDays (k + 1) = (d.subDays k).subOneDay :=
        Function.iterate_succ_apply' _ _ _
      rw [this]
      exact MDate.wf_subOneDay ih

/-- Adding at least one day strictly increases the date. -/
theorem MDate.lt_addDays {d : MDate} (h : d.WellFormed) (n : Nat) :
    d.ltB (d.addDays (n + 1)) = true := by
  induction n with
  | zero =>
      have : d.addDays 1 = d.addOneDay := rfl
      rw [this]
      exact MDate.lt_addOneDay h
  | succ k ih =>
      have : d.addDays (k + 1 + 1) = (d.addDays (k + 1)).addOneDay :=
        Function.iterate_succ_apply' _ _ _
      rw [this]
      exact MDate.ltB_trans ih (MDate.lt_addOneDay (MDate.wf_addDays h (k + 1)))

/-- Composition of day additions. -/
theorem MDate.addDays_addDays (d : MDate) (a b : Nat) :
    (d.addDays a).addDays b = d.addDays (b + a) :=
  (Function.iterate_add_apply _ _ _ _).symm

/-- Python runtime values that flow through the data-item dictionaries. -/
inductive PyVal where
  | vnone
  | vint (n : Int)
  | vstr (s : String)
  | vdate (d : MDate)
deriving DecidableEq, Repr

/-- Python exceptions that the embedded code can raise. -/
inductive PyErr where
  | typeError
  | keyError
  | attributeError
deriving DecidableEq, Repr

/-- A Python dict with string keys, as built by the dict literals of the
sources (keys distinct by construction). -/
abbrev Dict := List (String × PyVal)

/-- `key in d`. -/
def dictHas (d : Dict) (k : String) : Bool :=
  (List.lookup k d).isSome

/-- `d.get(key, dflt)`. -/
def dictGet (d : Dict) (k : String) (dflt : PyVal) : PyVal :=
  (List.lookup k d).getD dflt

/-- `d[key]`, raising `KeyError` when absent. -/
def dictItem (d : Dict) (k : String) : Except PyErr PyVal :=
  match List.lookup k d with
  | some v => .ok v
  | none => .error .keyError

/-- Python truthiness of a value. -/
def pyTruthy : PyVal → Bool
  | .vnone => false
  | .vint n => n != 0
  | .vstr s => s != ""
  | .vdate _ => true

/-- `len(v)`: defined on strings, `TypeError` otherwise. -/
def pyLen : PyVal → Except PyErr Nat
  | .vstr s => .ok s.length
  | _ => .error .typeError

/-- `v > 0`: defined on ints, `TypeError` otherwise (Python 3 refuses
ordering between unrelated types, including `None > 0`). -/
def pyGtZero : PyVal → Except PyErr Bool
  | .vint n => .ok (0 < n)
  | _ => .error .typeError

/-- `v.startswith(('http://', 'https://'))`: attribute lookup fails on
non-strings. -/
def pyStartswithHttp : PyVal → Except PyErr Bool
  | .vstr s => .ok (s.startsWith "http://" || s.startsWith "https://")
  | _ => .error .attributeError

/-- `isinstance(v, date)`. -/
def isDateV : PyVal → Bool
  | .vdate _ => true
  | _ => false

/-- Field present and not `None` (the guard of the required-field loops). -/
def fieldOk (d : Dict) (k : String) : Bool :=
  dictHas d k && (dictGet d k .vnone != .vnone)

/-- `DataVerifier._is_tick_season` (src/src/data_verifier.py:86-116):
months May..September are in season, April from the 20th, October up to
the 10th; non-dates are not in season. -/
def is_tick_season : PyVal → Bool
  | .vdate d =>
      if d.month = 5 || d.month = 6 || d.month = 7 || d.month = 8 || d.month = 9 then
        true
      else if d.month = 4 then decide (20 ≤ d.day)
      else if d.month = 10 then decide (d.day ≤ 10)
      else false
  | _ => false

/-- Reason codes, one per `issues.append` site of
`DataVerifier.verify_data_quality` (the interpolated Russian messages of
the source are abbreviated to tags). -/
inductive VIssue where
  | missingField (name : String)
  | badDateType
  | badCasesType
  | negativeCases
  | implausibleCases
  | futureDate
  | ancientDate
  | offSeason
  | badSource
  | badURL
deriving DecidableEq, Repr

/-- First half of `DataVerifier.verify_data_quality`
(src/src/data_verifier.py:127-161): the required-field, type, range and
date checks, through the season check.  The comparison
`data_item.get('cases', 0) > 0` raises a `TypeError` for a present
non-int `cases`, hence the `Except`. -/
def verify_step4 (today : MDate) (item : Dict) :
    Except PyErr (List VIssue) :=
  let i1 : List VIssue :=
    (if !fieldOk item "date" then [.missingField "date"] else []) ++
    (if !fieldOk item "cases" then [.missingField "cases"] else []) ++
    (if !fieldOk item "source" then [.missingField "source"] else [])
  let i2 := i1 ++
    (if dictHas item "date" && !isDateV (dictGet item "date" .vnone) then
      [.badDateType] else [])
  let i3 := i2 ++
    (if dictHas item "cases" then
      match dictGet item "cases" .vnone with
      | .vint n =>
          if n < 0 then [.negativeCases]
          else if 10000 < n then [.implausibleCases]
          else []
      | _ => [.badCasesType]
    else [])
  if dictHas item "date" then
    match dictGet item "date" .vnone with
    | .vdate dd =>
        let range :=
          if today.ltB dd then [.futureDate]
          else if dd.ltB ⟨2020, 1, 1⟩ then [.ancientDate]
          else []
        match pyGtZero (dictGet item "cases" (.vint 0)) with
        | .error e => .error e
        | .ok pos =>
            .ok (i3 ++ range ++
              (if pos && !is_tick_season (.vdate dd) then [.offSeason]
               else []))
    | _ => .ok i3
  else .ok i3

/-- The source check of `DataVerifier.verify_data_quality`
(src/src/data_verifier.py:163-167), appended to the issues `i4`
accumulated so far; `len` of a non-string source raises. -/
def verify_step5 (item : Dict) (i4 : List VIssue) :
    Except PyErr (List VIssue) :=
  if dictHas item "source" then
    if !pyTruthy (dictGet item "source" .vnone) then .ok (i4 ++ [.badSource])
    else
      match pyLen (dictGet item "source" .vnone) with
      | .error e => .error e
      | .ok l => .ok (i4 ++ (if 200 < l then [.badSource] else []))
  else .ok i4

/-- The url check of `DataVerifier.verify_data_quality`
(src/src/data_verifier.py:169-173); `.startswith` on a non-string url
raises. -/
def verify_step6 (item : Dict) (i5 : List VIssue) :
    Except PyErr (List VIssue) :=
  if dictHas item "url" && pyTruthy (dictGet item "url" .vnone) then
    match pyStartswithHttp (dictGet item "url" .vnone) with
    | .error e => .error e
    | .ok b => .ok (i5 ++ (if !b then [.badURL] else []))
  else .ok i5

/-- Second half of `DataVerifier.verify_data_quality`: the source and
url checks and the final `(len(issues) == 0, issues)` result. -/
def verify_steps56 (item : Dict) (i4 : List VIssue) :
    Except PyErr (Bool × List VIssue) :=
  match verify_step5 item i4 with
  | .error e => .error e
  | .ok i5 =>
      match verify_step6 item i5 with
      | .error e => .error e
      | .ok i6 => .ok (i6.isEmpty, i6)

/-- `DataVerifier.verify_data_quality` (src/src/data_verifier.py:118-175):
collects quality issues over a data-item dict; the result is
`(issues == [], issues)`.  The function is not wrapped in try/except, so
the type errors Python would raise surface as `Except.error`.  The
sequential body is split into `verify_step4` and `verify_steps56`. -/
def verify_data_quality (today : MDate) (item : Dict) :
    Except PyErr (Bool × List VIssue) :=
  match verify_step4 today item with
  | .error e => .error e
  | .ok i4 => verify_steps56 item i4

/-- `TickParser._validate_data_item` (src/src/parser.py:1017-1046): the
validation the ingestion pipeline actually applies before touching the
store.  Requires `date`, `cases`, `risk_level`, `source` present with
the right types, `cases ≥ 0`, `len(risk_level) ≤ 50`,
`len(source) ≤ 200`, and the date not in the future.  It has no season
check, no pre-2020 check and no upper bound on `cases`.  (Its Python
body is wrapped in try/except returning False, but none of these
operations can raise.) -/
def validate_data_item (today : MDate) (item : Dict) : Bool :=
  if !(fieldOk item "date" && fieldOk item "cases" &&
        fieldOk item "risk_level" && fieldOk item "source") then false
  else
    match dictGet item "date" .vnone with
    | .vdate dd =>
        match dictGet item "cases" .vnone with
        | .vint n =>
            if n < 0 then false
            else
              match dictGet item "risk_level" .vnone with
              | .vstr r =>
                  if 50 < r.length then false
                  else
                    match dictGet item "source" .vnone with
                    | .vstr s =>
                        if 200 < s.length then false
                        else if today.ltB dd then false
                        else true
                    | _ => false
              | _ => false
        | _ => false
    | _ => false

/-- Risk thresholds as read from `config.json` (`risk_levels.*.threshold`);
these are the hard-coded defaults used when the file is absent. -/
structure RiskThresholds where
  low : Int
  moderate : Int
  high : Int
  very_high : Int
deriving DecidableEq, Repr

/-- Default thresholds of `DatabaseManager.calculate_risk_level` and
`TickParser.calculate_risk_level`. -/
def defaultThresholds : RiskThresholds :=
  ⟨50, 100, 150, 999999⟩

/-- `calculate_risk_level` of src/src/app.py:569-580: hard-coded
thresholds, Russian labels, and the no-data label for zero or non-int
input. -/
def app_calculate_risk_level (cases : PyVal) : String :=
  match cases with
  | .vint n =>
      if n = 0 then "Нет данных"
      else if n < 50 then "Низкий"
      else if n < 100 then "Умеренный"
      else if n < 150 then "Высокий"
      else "Очень высокий"
  | _ => "Нет данных"

/-- `DatabaseManager.calculate_risk_level` (src/src/database.py:62-92) and
the identical `TickParser.calculate_risk_level` (src/src/parser.py:597-617):
the thresholds are re-read from the configuration on every call; the
`t` argument is the configuration in effect for the call (defaults when
the file is missing or malformed). -/
def db_calculate_risk_level (t : RiskThresholds) (cases : PyVal) : String :=
  match cases with
  | .vint n =>
      if n = 0 then "Нет данных"
      else if n < t.low then "Низкий"
      else if n < t.moderate then "Умеренный"
      else if n < t.high then "Высокий"
      else "Очень высокий"
  | _ => "Нет данных"

/-- A stored row of the `tick_data` table (src/src/database.py:13-29),
timestamp columns elided. -/
structure Row where
  id : Nat
  date : MDate
  cases : Int
  risk_level : String
  source : String
  title : String
  content : String
  url : String
deriving DecidableEq, Repr

/-- Extract the int a `Column(Integer)` would store (well-typed calls pass
ints; the claims never exercise other shapes). -/
def asIntD (v : PyVal) : Int :=
  match v with
  | .vint n => n
  | _ => 0

/-- Extract the string a text column would store. -/
def asStrD (v : PyVal) : String :=
  match v with
  | .vstr s => s
  | _ => ""

/-- `item['date'] == row.date` as evaluated by the SQLAlchemy filter
(an equality against a non-date never matches). -/
def pyEqDate (v : PyVal) (d : MDate) : Bool :=
  match v with
  | .vdate dd => dd == d
  | _ => false

/-- The argument passed to `save_tick_data`: its signature expects a list
of dicts, but `TickParser.update_all_data` passes one dict. -/
inductive PyArg where
  | plist (items : List Dict)
  | pdict (d : Dict)

/-- One step of Python iteration: `for item in data_list` yields the dicts
of a list, but yields the *keys* (strings) of a dict. -/
inductive PyIterVal where
  | idict (d : Dict)
  | istr (s : String)

/-- Python iteration over the `data_list` argument. -/
def pyIter : PyArg → List PyIterVal
  | .plist items => items.map .idict
  | .pdict d => d.map (fun kv => .istr kv.1)

/-- `item['date']` for a loop variable that may be a dict or a string;
subscripting a string with a string is a `TypeError`. -/
def iterItem (v : PyIterVal) (k : String) : Except PyErr PyVal :=
  match v with
  | .idict d => dictItem d k
  | .istr _ => .error .typeError

/-- `item.get(k, dflt)` for the loop variable. -/
def iterGet (v : PyIterVal) (k : String) (dflt : PyVal) : Except PyErr PyVal :=
  match v with
  | .idict d => .ok (dictGet d k dflt)
  | .istr _ => .error .attributeError

/-- Body of the `for item in data_list` loop of
`DatabaseManager.save_tick_data` (src/src/database.py:99-128): look up an
existing row by `(date, source, title)`, update its mutable columns or
insert a fresh row.  State is `(rows, next id, saved_count)`. -/
def save_tick_loop_body (t : RiskThresholds)
    (st : List Row × Nat × Nat) (item : PyIterVal) :
    Except PyErr (List Row × Nat × Nat) := do
  let (store, nid, saved) := st
  let dv ← iterItem item "date"
  let sv ← iterGet item "source" (.vstr "")
  let tv ← iterGet item "title" (.vstr "")
  let existing := store.find? (fun r =>
    pyEqDate dv r.date && asStrD sv == r.source && asStrD tv == r.title)
  let rlv ← iterGet item "risk_level" .vnone
  let cv ← iterGet item "cases" (.vint 0)
  let risk :=
    if pyTruthy rlv then asStrD rlv else db_calculate_risk_level t cv
  let contentv ← iterGet item "content" (.vstr "")
  let urlv ← iterGet item "url" (.vstr "")
  match existing with
  | some ex =>
      let store2 := store.map (fun r =>
        if r.id = ex.id then
          { r with cases := asIntD cv, risk_level := risk,
                   content := asStrD contentv, url := asStrD urlv }
        else r)
      pure (store2, nid, saved)
  | none =>
      match dv with
      | .vdate dd =>
          let row : Row :=
            { id := nid, date := dd, cases := asIntD cv, risk_level := risk,
              source := (if pyTruthy sv then asStrD sv else "Неизвестно"),
              title := asStrD tv, content := asStrD contentv,
              url := asStrD urlv }
          pure (store ++ [row], nid + 1, saved + 1)
      | _ => .error .typeError

/-- `DatabaseManager.save_tick_data` (src/src/database.py:94-138).  The
per-item work happens inside one transaction; on any exception the
session is rolled back and the exception re-raised, so an `.error`
result leaves the caller's store unchanged.  `source := "Неизвестно"`
is the Python `item.get('source', 'Неизвестно')` default for the insert
branch; the update branch and the dedup filter use `''` defaults,
mirroring the asymmetry of the source. -/
def save_tick_data (t : RiskThresholds) (store : List Row) (nid : Nat)
    (arg : PyArg) : Except PyErr (List Row × Nat × Nat) :=
  (pyIter arg).foldlM (save_tick_loop_body t) (store, nid, 0)

/-- Modelled from the spec: `DatabaseManager.get_tick_data_by_url` is
called from `TickParser.update_all_data` (src/src/parser.py:979) and
`DataVerifier.is_duplicate` (src/src/data_verifier.py:56) but its
definition is not under `src/`.  Per §4.6 (`get_by_url(url) → record |
null`, "by-URL lookup") and §4.5 (the url key is consulted only when
non-empty) it returns the stored row carrying the given url, and null
for an empty, missing or non-string url. -/
def get_tick_data_by_url (store : List Row) (url : PyVal) : Option Row :=
  match url with
  | .vstr s => if s = "" then none else store.find? (fun r => r.url == s)
  | _ => none

/-- Modelled from the spec: `DatabaseManager.update_tick_data` is called
from `TickParser.update_all_data` (src/src/parser.py:984) but its
definition is not under `src/`.  Per §3 (records are "updated only by
the deduplicator when a matching URL is re-observed (updating mutable
fields: cases, content, last_updated_at)") the row with the given id
receives the candidate's cases and content; identity fields (id, date,
source, title, url) are untouched. -/
def update_tick_data (store : List Row) (rid : Nat) (item : Dict) : List Row :=
  store.map (fun r =>
    if r.id = rid then
      { r with cases := asIntD (dictGet item "cases" (.vint 0)),
               content := asStrD (dictGet item "content" (.vstr "")) }
    else r)

/-- One iteration of the save loop of `TickParser.update_all_data`
(src/src/parser.py:970-1001): validate, then update by url when a row
exists, else `save_tick_data(data_item)` — whose exception (the argument
is a dict where a list is expected) is caught and counted as an error,
leaving the store unchanged. -/
def process_item (t : RiskThresholds) (today : MDate)
    (st : List Row × Nat) (item : Dict) : List Row × Nat :=
  let (store, nid) := st
  if !validate_data_item today item then st
  else
    match get_tick_data_by_url store (dictGet item "url" .vnone) with
    | some ex => (update_tick_data store ex.id item, nid)
    | none =>
        match save_tick_data t store nid (.pdict item) with
        | .ok (s, n2, _) => (s, n2)
        | .error _ => st

/-- The whole save loop of `TickParser.update_all_data` over the parsed
candidate records. -/
def update_all_data_saves (t : RiskThresholds) (today : MDate)
    (st : List Row × Nat) (items : List Dict) : List Row × Nat :=
  items.foldl (process_item t today) st

/-- A stored record reduced to the fields the aggregations read
(`load_tick_data` rows carry more columns; the groupings use only
`date` and `cases`). -/
structure HRow where
  date : MDate
  cases : Int
deriving DecidableEq, Repr

/-- Binary minimum of dates (`pandas` `min` under the date order). -/
def dateMin (a b : MDate) : MDate :=
  if b.ltB a then b else a

/-- Binary maximum of dates. -/
def dateMax (a b : MDate) : MDate :=
  if a.ltB b then b else a

/-- Minimum of a list of dates (groups are never empty; the default is
unreachable). -/
def listMinDate : List MDate → MDate
  | [] => ⟨1970, 1, 1⟩
  | d :: ds => ds.foldl dateMin d

/-- Maximum of a list of dates. -/
def listMaxDate : List MDate → MDate
  | [] => ⟨1970, 1, 1⟩
  | d :: ds => ds.foldl dateMax d

/-- One aggregated week row: the `year_week` key (as the pair the key
string encodes), the summed cases, and the min/max record date of the
group (`agg({'cases': 'sum', 'date': ['min', 'max']})`). -/
structure WeekBucket where
  key : Nat × Nat
  cases : Int
  start_date : MDate
  end_date : MDate
deriving DecidableEq, Repr

/-- `df.groupby(key).agg({'cases': 'sum', 'date': ['min', 'max']})`: one
bucket per distinct key, in first-occurrence order (the pandas group
order is by key string, but every caller re-sorts by `start_date` and
distinct groups have distinct min dates, so the intermediate order is
irrelevant). -/
def groupRows (key : MDate → Nat × Nat) (rows : List HRow) : List WeekBucket :=
  ((rows.map (fun r => key r.date)).dedup).map (fun k =>
    let g := rows.filter (fun r => key r.date == k)
    { key := k
      cases := (g.map (·.cases)).sum
      start_date := listMinDate (g.map (·.date))
      end_date := listMaxDate (g.map (·.date)) })

/-- `weekly_data.sort_values('start_date')`. -/
def sortBuckets (bs : List WeekBucket) : List WeekBucket :=
  List.insertionSort (fun a b => a.start_date.leB b.start_date = true) bs

/-- `DatabaseManager.get_all_data_grouped_by_week`
(src/src/database.py:239-276) and the identical inline grouping of
`get_graph_data` (src/src/app.py:185-202): the grouping key is
`date.strftime('%Y-%U')` — the calendar year paired with the
Sunday-started `%U` week number. -/
def get_all_data_grouped_by_week (rows : List HRow) : List WeekBucket :=
  if rows.isEmpty then []
  else sortBuckets (groupRows (fun d => (d.year, d.uWeek)) rows)

/-- The weekly grouping of `TickPredictor.prepare_data` and
`TickPredictor.predict_next_weeks` (src/src/ml_predictor.py:134-150 and
319-326): key `str(df.year) + '_' + isocalendar().week` — the *calendar*
year paired with the ISO week number — aggregated as
`{'cases': 'sum', 'date': 'min'}` and sorted by the min date (the
`end_date` field of the bucket is unused on this path). -/
def isoWeeklyAgg (rows : List HRow) : List WeekBucket :=
  sortBuckets (groupRows (fun d => (d.year, d.isoWeek)) rows)

/-- ISO-8601 year of a date (the year the date's ISO week belongs to),
Python's `date.isocalendar().year`. -/
def MDate.isoYear (d : MDate) : Nat :=
  let w := (d.yday + 10 - d.isoWday) / 7
  if w = 0 then d.year - 1
  else if isoWeeksInYear d.year < w then d.year + 1
  else d.year

/-- Spec-side definition (claim C4's words, not the code): how many
buckets an ISO-8601 Monday-started (year, week) grouping of the record
set would produce. -/
def specIsoBucketCount (rows : List HRow) : Nat :=
  ((rows.map (fun r => (r.date.isoYear, r.date.isoWeek))).dedup).length

/-- A forecast point as built by the predictor's dicts
`{'date', 'cases', 'week_number', 'is_forecast': True}` (the constant
`is_forecast` flag is elided). -/
structure FPoint where
  date : MDate
  cases : Int
  week_number : Nat
deriving DecidableEq, Repr

/-- Environment of a `TickPredictor` call: which libraries imported and
what float-valued regressor state exists.  A regressor (with its fitted
scaler and the `int(...)` truncation of src/src/ml_predictor.py:347)
is abstracted as a function from the 4-week window to an integer. -/
structure MLEnv where
  sklearn : Bool
  enhanced : Bool
  trained : Option (List Int → Int)
  fit : Option (List Int → Int)

/-- Last `n` elements, `l[-n:]` / `.tail(n)` / `.iloc[-n:]`. -/
def takeRight {α : Type} (n : Nat) (l : List α) : List α :=
  l.drop (l.length - n)

/-- Exact value of `.mean()` over ints (Python computes a float; every
property stated about it — here only its sign — agrees with the exact
rational). -/
def ratMean (l : List Int) : ℚ :=
  (l.sum : ℚ) / (l.length : ℚ)

/-- Python `int(q)`: truncation toward zero (`Int.div`, not the
Euclidean `/`). -/
def pyInt (q : ℚ) : Int :=
  Int.tdiv q.num (q.den : Int)

/-- `TickPredictor.prepare_data` (src/src/ml_predictor.py:72-219) reduced
to its decision content: negatives are clamped to 0, rows are grouped
into ISO weekly buckets, and `None` is returned when fewer than 10 rows,
fewer than 8 buckets, an all-zero weekly series, or fewer than 4 sliding
windows remain (the NaN/Inf and date-coercion edge cases of the source
cannot arise for typed rows).  On success the (window, target) training
pairs are returned. -/
def prepare_data (hist : List HRow) : Option (List (List Int × Int)) :=
  if hist.length < 10 then none
  else
    let hist2 := hist.map (fun r => { r with cases := max r.cases 0 })
    let weekly := isoWeeklyAgg hist2
    if weekly.length < 8 then none
    else if (weekly.map (·.cases)).sum = 0 then none
    else
      let cs := weekly.map (·.cases)
      let feats := (List.range cs.length).filterMap (fun i =>
        if 4 ≤ i then
          let X := (cs.drop (i - 4)).take 4
          let y := cs.getD i 0
          if X.any (fun v => decide (v < 0)) || y < 0 then none
          else some (X, y)
        else none)
      if feats.length < 4 then none else some feats

/-- `TickPredictor.train_model` (src/src/ml_predictor.py:221-300):
fails (returns `False`, here `none`) without scikit-learn or when
`prepare_data` fails; in the enhanced-ML configuration the call
`self._train_enhanced_models(...)` raises (the method is not defined on
the class and `X_test_scaled` is unbound) and the exception is caught,
so training fails there too; otherwise the basic branch fits candidate
models and keeps the best (`env.fit`, `none` when every fit errors). -/
def train_model (env : MLEnv) (hist : List HRow) :
    Option (List Int → Int) :=
  if !env.sklearn then none
  else
    match prepare_data hist with
    | none => none
    | some _ => if env.enhanced then none else env.fit

/-- `TickPredictor._simple_predict` (src/src/ml_predictor.py:380-411):
mean of the last 56 rows' cases, truncated to int, repeated for `k`
points dated in weekly steps after the last record date.  Its body is
wrapped in try/except returning `[]`, but no operation of the typed
model can raise. -/
def simple_predict (hist : List HRow) (k : Nat) : List FPoint :=
  if hist.isEmpty then []
  else
    let sorted := List.insertionSort (fun a b => a.date.leB b.date = true) hist
    let recent := takeRight 56 sorted
    let avgInt := pyInt (ratMean (recent.map (·.cases)))
    let lastDate := listMaxDate (hist.map (·.date))
    (List.range k).map (fun i =>
      { date := lastDate.addDays (7 * (i + 1)), cases := avgInt,
        week_number := i + 1 })

/-- The forecast loop of `predict_next_weeks`
(src/src/ml_predictor.py:334-371): each prediction is
`max(0, int(model.predict(last 4 values)))`, appended to the window; the
i-th point is dated `last_date + (i+1) weeks`.  (The source builds the
prediction and date lists separately and zips them; fused here.) -/
def genFPs (m : List Int → Int) (lastDate : MDate) :
    List Int → Nat → Nat → List FPoint
  | _, _, 0 => []
  | cur, i, rem + 1 =>
      let p := max 0 (m (takeRight 4 cur))
      { date := lastDate.addDays (7 * (i + 1)), cases := p,
        week_number := i + 1 } :: genFPs m lastDate (cur ++ [p]) (i + 1) rem

/-- The `try` body of `TickPredictor.predict_next_weeks`
(src/src/ml_predictor.py:306-374): train on demand and fall back to the
baseline on failure (a normal return), raise `KeyError` on an empty
history (`df['date']` on an empty frame), fall back below 4 buckets,
otherwise run the model loop. -/
def predict_try_body (env : MLEnv) (hist : List HRow) (k : Nat) :
    Except PyErr (List FPoint) :=
  let m := match env.trained with
    | some m => some m
    | none => train_model env hist
  match m with
  | none => .ok (simple_predict hist k)
  | some m =>
      if hist.isEmpty then .error .keyError
      else
        let weekly := isoWeeklyAgg hist
        if weekly.length < 4 then .ok (simple_predict hist k)
        else
          let cs := weekly.map (·.cases)
          let lastDate :=
            ((weekly.map (·.start_date)).getLast?).getD ⟨1970, 1, 1⟩
          .ok (genFPs m lastDate (takeRight 4 cs) 0 k)

/-- `TickPredictor.predict_next_weeks` (src/src/ml_predictor.py:302-378)
with its exception behaviour explicit: without scikit-learn the baseline
runs; otherwise the try body runs and its exceptions are caught,
re-routing to the baseline.  A caller-visible exception would be an
`.error` result; the handlers make that impossible. -/
def predict_next_weeks_checked (env : MLEnv) (hist : List HRow) (k : Nat) :
    Except PyErr (List FPoint) :=
  if !env.sklearn then .ok (simple_predict hist k)
  else
    match predict_try_body env hist k with
    | .ok r => .ok r
    | .error _ => .ok (simple_predict hist k)

/-- The value `predict_next_weeks` returns. -/
def predict_next_weeks (env : MLEnv) (hist : List HRow) (k : Nat) :
    List FPoint :=
  match predict_next_weeks_checked env hist k with
  | .ok r => r
  | .error _ => []

/-- The `try` body of `TickPredictor.get_forecast_for_2026`
(src/src/ml_predictor.py:413-456): `KeyError` on an empty history, else
restrict to rows from 2024-01-01 (keeping everything when fewer than 10
remain), forecast `max(52, weeks to 2026-12-31)` weeks ahead and keep
the points dated in 2026. -/
def forecast_2026_body (env : MLEnv) (today : MDate) (hist : List HRow) :
    Except PyErr (List FPoint) :=
  if hist.isEmpty then .error .keyError
  else
    let filtered := hist.filter (fun r => !r.date.ltB ⟨2024, 1, 1⟩)
    let filtered2 := if filtered.length < 10 then hist else filtered
    let wa : Int :=
      if 2026 ≤ today.year then
        Int.fdiv ((MDate.toRata ⟨2026, 12, 31⟩) - today.toRata) 7
      else
        Int.fdiv ((MDate.toRata ⟨2026, 12, 31⟩) - MDate.toRata ⟨2026, 1, 1⟩) 7
    let weeksAhead : Nat := (max 52 wa).toNat
    let fc := predict_next_weeks env filtered2 weeksAhead
    .ok (fc.filter (fun f => f.date.year == 2026))

/-- `TickPredictor.get_forecast_for_2026` with its catch-all handler:
errors become the empty list. -/
def get_forecast_for_2026_checked (env : MLEnv) (today : MDate)
    (hist : List HRow) : Except PyErr (List FPoint) :=
  match forecast_2026_body env today hist with
  | .ok r => .ok r
  | .error _ => .ok []

/-- The value `get_forecast_for_2026` returns. -/
def get_forecast_for_2026 (env : MLEnv) (today : MDate)
    (hist : List HRow) : List FPoint :=
  match get_forecast_for_2026_checked env today hist with
  | .ok r => r
  | .error _ => []

/-- Case folding for the Russian and ASCII letters the patterns use
(Python's `re.IGNORECASE` under a pre-lowered text). -/
def rlower (c : Char) : Char :=
  let n := c.toNat
  if 0x41 ≤ n && n ≤ 0x5A then Char.ofNat (n + 0x20)
  else if 0x410 ≤ n && n ≤ 0x42F then Char.ofNat (n + 0x20)
  else if n = 0x401 then Char.ofNat 0x451
  else c

/-- Value of an ASCII digit run. -/
def digitsToNat (ds : List Char) : Nat :=
  ds.foldl (fun a c => a * 10 + (c.toNat - 48)) 0

/-- Substring test (`pat in text` for Python strings). -/
def containsSub (text pat : List Char) : Bool :=
  if pat.isPrefixOf text then true
  else
    match text with
    | [] => false
    | _ :: ts => containsSub ts pat

/-- The fragment of Python regular expressions the case-count patterns
use: literal runs, single character classes, greedy stars of character
classes, and one greedy captured digit run (`(\d+)` or `(\d{1,4})`). -/
inductive RE where
  | eps
  | tok (p : Char → Bool)
  | starCls (p : Char → Bool)
  | grpDigits (maxLen : Option Nat)
  | cat (a b : RE)
  | alt (a b : RE)

/-- All ways a pattern can match a prefix of `s`, as
`(captured number, rest)` pairs in Python's backtracking preference
order (greedy quantifiers longest-first, alternatives left-first). -/
def mrun : RE → List Char → List (Option Nat × List Char)
  | .eps, s => [(none, s)]
  | .tok _, [] => []
  | .tok p, c :: cs => if p c then [(none, cs)] else []
  | .starCls p, s =>
      let pre := (s.takeWhile p).length
      (List.range (pre + 1)).reverse.map (fun n => (none, s.drop n))
  | .grpDigits mx, s =>
      let ds := s.takeWhile Char.isDigit
      let ds := match mx with
        | some m => ds.take m
        | none => ds
      (List.range ds.length).reverse.map (fun n =>
        (some (digitsToNat (ds.take (n + 1))), s.drop (n + 1)))
  | .cat a b, s =>
      (mrun a s).flatMap (fun x =>
        (mrun b x.2).map (fun y => (x.1.orElse (fun _ => y.1), y.2)))
  | .alt a b, s => mrun a s ++ mrun b s

/-- `re.search`: the captured group of the leftmost match (every pattern
below has exactly one group). -/
def reSearch (r : RE) : List Char → Option (Option Nat)
  | [] =>
      match mrun r [] with
      | x :: _ => some x.1
      | [] => none
  | c :: cs =>
      match mrun r (c :: cs) with
      | x :: _ => some x.1
      | [] => reSearch r cs

/-- Literal word (patterns are written lowercase; the text is
pre-lowered). -/
def litStr (w : String) : RE :=
  (w.data.map (fun c => RE.tok (fun x => x == c))).foldr RE.cat RE.eps

/-- The `\D` class. -/
def ndCls : Char → Bool := fun c => !c.isDigit

/-- The `\s` class (the whitespace the harvested texts contain). -/
def wsCls : Char → Bool := fun c =>
  c == ' ' || c == '\t' || c == '\n' || c == '\r'

/-- The ten first-sweep patterns of `TickParser.extract_case_number`
(src/src/parser.py:557-568), in cascade order. -/
def caseRegexList : List RE :=
  [ RE.cat (litStr "зарегистрировано") (RE.cat (RE.starCls ndCls)
      (RE.cat (RE.grpDigits none) (RE.cat (RE.starCls ndCls) (litStr "обращ")))),
    RE.cat (litStr "выявлено") (RE.cat (RE.starCls ndCls)
      (RE.cat (RE.grpDigits none) (RE.cat (RE.starCls ndCls) (litStr "случа")))),
    RE.cat (RE.grpDigits none) (RE.cat (RE.starCls ndCls) (litStr "укус")),
    RE.cat (litStr "клещ") (RE.cat (RE.starCls ndCls) (RE.grpDigits none)),
    RE.cat (RE.grpDigits none) (RE.cat (RE.starCls wsCls)
      (RE.alt (RE.cat (litStr "случа")
          (RE.cat (RE.tok (fun c => c == 'е' || c == 'я')) (litStr "в")))
        (RE.cat (litStr "обращени") (RE.tok (fun c => c == 'и' || c == 'й'))))),
    RE.cat (RE.grpDigits none) (RE.cat (RE.starCls wsCls)
      (RE.alt (litStr "человек")
        (RE.cat (litStr "жител") (RE.tok (fun c => c == 'е' || c == 'й'))))),
    RE.cat (litStr "обратилось") (RE.cat (RE.starCls ndCls) (RE.grpDigits none)),
    RE.cat (litStr "поступило") (RE.cat (RE.starCls ndCls)
      (RE.cat (RE.grpDigits none) (RE.cat (RE.starCls ndCls) (litStr "обращ")))),
    RE.cat (RE.grpDigits none) (RE.cat (RE.starCls ndCls) (litStr "пострадал")),
    RE.cat (RE.grpDigits none) (RE.cat (RE.starCls ndCls) (litStr "присасыван")) ]

/-- The five second-sweep keywords (src/src/parser.py:583). -/
def caseKeywords : List String :=
  ["клещ", "укус", "обращение", "случай", "присасывание"]

/-- The second-sweep pattern `rf'{keyword}[^\d]*(\d{1,4})'`. -/
def keywordRE (kw : String) : RE :=
  RE.cat (litStr kw) (RE.cat (RE.starCls ndCls) (RE.grpDigits (some 4)))

/-- One sweep: the captured number of the first pattern that matches with
a value in (0, 10000]; a match whose value falls outside the range is
skipped and the cascade continues. -/
def sweepFind : List RE → List Char → Option Nat
  | [], _ => none
  | r :: rs, t =>
      match reSearch r t with
      | some (some v) =>
          if 0 < v && v ≤ 10000 then some v else sweepFind rs t
      | _ => sweepFind rs t

/-- `TickParser.extract_case_number` (src/src/parser.py:555-595): the
regex cascade, then the keyword-proximity sweep, then 0. -/
def extract_case_number (text : String) : Int :=
  let t := text.data.map rlower
  match sweepFind caseRegexList t with
  | some v => (v : Int)
  | none =>
      match sweepFind (caseKeywords.map keywordRE) t with
      | some v => (v : Int)
      | none => 0

/-- Whether `text` contains any of the five keywords (the containment
`word in text.lower()` of the claim, under the same case folding). -/
def containsAnyKeyword (text : String) : Bool :=
  caseKeywords.any (fun kw => containsSub (text.data.map rlower) kw.data)

/-- Match a fixed character-class shape at the head of a string. -/
def matchShape (shape : List (Char → Bool)) (s : List Char) :
    Option (List Char) :=
  match shape, s with
  | [], _ => some []
  | _ :: _, [] => none
  | p :: ps, c :: cs =>
      if p c then (matchShape ps cs).map (fun m => c :: m) else none

/-- Leftmost occurrence of a fixed shape (`re.search` for patterns
without quantifier choice). -/
def scanShape (shape : List (Char → Bool)) (s : List Char) :
    Option (List Char) :=
  match matchShape shape s with
  | some m => some m
  | none =>
      match s with
      | [] => none
      | _ :: cs => scanShape shape cs

/-- Digit class. -/
def dCls : Char → Bool := Char.isDigit

/-- `n` digit tokens. -/
def digitsShape (n : Nat) : List (Char → Bool) :=
  List.replicate n dCls

/-- One literal character token. -/
def chTok (c : Char) : Char → Bool := fun x => x == c

/-- The date built by `datetime.date(y, m, d)` / `strptime`, `none` when
the constructor would raise `ValueError` (strptime validates real
calendar dates, including the Python year range 1..9999). -/
def mkDateValid (y m d : Nat) : Option MDate :=
  let dt : MDate := ⟨y, m, d⟩
  if 1 ≤ y ∧ y ≤ 9999 ∧ dt.WellFormed then some dt else none

/-- Parse a matched `D{1,2}.D{1,2}.YYYY` string (strptime `%d.%m.%Y`). -/
def parseDMY (m : List Char) : Option MDate :=
  let parts := List.splitOn '.' m
  match parts with
  | [ds, ms, ys] => mkDateValid (digitsToNat ys) (digitsToNat ms) (digitsToNat ds)
  | _ => none

/-- Parse a matched `YYYY-MM-DD` string (strptime `%Y-%m-%d`). -/
def parseYMD (m : List Char) : Option MDate :=
  let parts := List.splitOn '-' m
  match parts with
  | [ys, ms, ds] => mkDateValid (digitsToNat ys) (digitsToNat ms) (digitsToNat ds)
  | _ => none

/-- `\d{1,2}\.\d{1,2}\.\d{4}` at the leftmost position, with the greedy
backtracking order (2-digit day before 1-digit day, then month). -/
def scanFlexDMY (s : List Char) : Option (List Char) :=
  let attempt := fun (t : List Char) =>
    (matchShape (digitsShape 2 ++ [chTok '.'] ++ digitsShape 2 ++
        [chTok '.'] ++ digitsShape 4) t).orElse (fun _ =>
    (matchShape (digitsShape 2 ++ [chTok '.'] ++ digitsShape 1 ++
        [chTok '.'] ++ digitsShape 4) t).orElse (fun _ =>
    (matchShape (digitsShape 1 ++ [chTok '.'] ++ digitsShape 2 ++
        [chTok '.'] ++ digitsShape 4) t).orElse (fun _ =>
    matchShape (digitsShape 1 ++ [chTok '.'] ++ digitsShape 1 ++
        [chTok '.'] ++ digitsShape 4) t)))
  match attempt s with
  | some m => some m
  | none =>
      match s with
      | [] => none
      | _ :: cs => scanFlexDMY cs

/-- The Russian month-name table of src/src/parser.py:285-289. -/
def ruMonths : List (String × Nat) :=
  [("января", 1), ("февраля", 2), ("марта", 3), ("апреля", 4),
   ("мая", 5), ("июня", 6), ("июля", 7), ("августа", 8),
   ("сентября", 9), ("октября", 10), ("ноября", 11), ("декабря", 12)]

/-- Match `\s+name\s+\d{4}` for the first month name that fits,
returning (month number, year digits). -/
def matchRuTail (s : List Char) : Option (Nat × Nat) :=
  let ws := s.takeWhile wsCls
  if ws.isEmpty then none
  else
    let rest := s.drop ws.length
    (ruMonths.filterMap (fun mn =>
      if mn.1.data.isPrefixOf rest then
        let rest2 := rest.drop mn.1.data.length
        let ws2 := rest2.takeWhile wsCls
        if ws2.isEmpty then none
        else
          match matchShape (digitsShape 4) (rest2.drop ws2.length) with
          | some ys => some (mn.2, digitsToNat ys)
          | none => none
      else none)).head?

/-- `\d{1,2}\s+(january..december russian)\s+\d{4}` at the leftmost
position: (day, month, year) of the match. -/
def scanRuDate (s : List Char) : Option (Nat × Nat × Nat) :=
  let attempt := fun (t : List Char) =>
    (match matchShape (digitsShape 2) t with
     | some ds =>
         (matchRuTail (t.drop 2)).map
           (fun (p : Nat × Nat) => (digitsToNat ds, p.1, p.2))
     | none => none).orElse (fun _ =>
      match matchShape (digitsShape 1) t with
      | some ds =>
          (matchRuTail (t.drop 1)).map
            (fun (p : Nat × Nat) => (digitsToNat ds, p.1, p.2))
      | none => none)
  match attempt s with
  | some r => some r
  | none =>
      match s with
      | [] => none
      | _ :: cs => scanRuDate cs

/-- The date produced by the first of the four regex date patterns of
src/src/parser.py:269-274 that both matches and parses; a pattern whose
match fails to parse falls through to the next pattern (`continue`). -/
def firstParsedDate (t : List Char) : Option MDate :=
  ((scanShape (digitsShape 2 ++ [chTok '.'] ++ digitsShape 2 ++
      [chTok '.'] ++ digitsShape 4) t).bind parseDMY).orElse (fun _ =>
  ((scanShape (digitsShape 4 ++ [chTok '-'] ++ digitsShape 2 ++
      [chTok '-'] ++ digitsShape 2) t).bind parseYMD).orElse (fun _ =>
  ((scanFlexDMY t).bind parseDMY).orElse (fun _ =>
  (scanRuDate t).bind (fun r => mkDateValid r.2.2 r.2.1 r.1))))

/-- The in-loop validation of src/src/parser.py:297-308: a future date is
replaced by today (a warning is logged and the record kept), a pre-2020
date rejects the whole record, anything else is kept as is. -/
def validateLoopDate (today d : MDate) : Option MDate :=
  if today.ltB d then some today
  else if d.ltB ⟨2020, 1, 1⟩ then none
  else some d

/-- The `/(\d{4})/(\d{2})/(\d{2})/` URL pattern of src/src/parser.py:318. -/
def scanUrlDate (s : List Char) : Option (Nat × Nat × Nat) :=
  (scanShape ([chTok '/'] ++ digitsShape 4 ++ [chTok '/'] ++ digitsShape 2 ++
      [chTok '/'] ++ digitsShape 2 ++ [chTok '/']) s).map (fun m =>
    let ds := m.filter Char.isDigit
    (digitsToNat (ds.take 4), digitsToNat ((ds.drop 4).take 2),
      digitsToNat (ds.drop 6)))

/-- The date resolution of `TickParser.parse_article_page`
(src/src/parser.py:255-338): `some d` means a record is built whose
`date` field is `d` (lines 348-356); `none` means the record is skipped.
Stage 1 is the `dateutil` fuzzy parse of `date_text`, an external
library parameterized as `fuzzy`; it is consulted only for a non-empty
`date_text` and its result is used *without any validation*.  Stage 2
is the regex cascade with the in-loop validation.  Stage 3 extracts a
date from the URL, validating the same way but silently skipping a
`ValueError`. -/
def parse_article_page_date (today : MDate) (fuzzy : Option MDate)
    (dateText : String) (articleUrl : String) : Option MDate :=
  let t := dateText.data.map rlower
  let stage1 := if dateText.isEmpty then none else fuzzy
  match stage1 with
  | some d => some d
  | none =>
      match (if dateText.isEmpty then none else firstParsedDate t) with
      | some d => validateLoopDate today d
      | none =>
          match scanUrlDate articleUrl.data with
          | some r =>
              match mkDateValid r.1 r.2.1 r.2.2 with
              | some d => validateLoopDate today d
              | none => none
          | none => none

/-- The `{cases, date, risk_level}` summary `get_weekly_data` returns. -/
structure WeeklySummary where
  cases : Int
  date : MDate
  risk_level : String
deriving DecidableEq, Repr

/-- `DatabaseManager.get_weekly_data` (src/src/database.py:177-209):
`target = today - weeks_ago weeks`; the newest row dated at or before
the target is returned, else a `{0, target, 'Нет данных'}` default; a
store error (the session raising, modelled by the `.error` argument)
yields `{0, today, 'Нет данных'}`.  Row ties on the maximal date are
returned in store order (the SQL `first()` under `ORDER BY date DESC`
leaves ties unspecified). -/
def pickNewest (acc : Option Row) (r : Row) : Option Row :=
  match acc with
  | none => some r
  | some b => if b.date.ltB r.date then some r else some b

def get_weekly_data (today : MDate) (db : Except Unit (List Row))
    (weeks_ago : Nat) : WeeklySummary :=
  match db with
  | .error _ => { cases := 0, date := today, risk_level := "Нет данных" }
  | .ok rows =>
      let target := today.subDays (7 * weeks_ago)
      let eligible := rows.filter (fun r => r.date.leB target)
      match eligible.foldl pickNewest none with
      | some r => { cases := r.cases, date := r.date, risk_level := r.risk_level }
      | none => { cases := 0, date := target, risk_level := "Нет данных" }

/-- Date order: not-less is transitive (the lexicographic order is
total). -/
theorem MDate.ltB_false_trans {a b c : MDate} (h1 : a.ltB b = false)
    (h2 : b.ltB c = false) : a.ltB c = false := by
  have h1n : ¬ (a.ltB b = true) := by simp [h1]
  have h2n : ¬ (b.ltB c = true) := by simp [h2]
  rw [MDate.ltB_iff] at h1n h2n
  rw [Bool.eq_false_iff]
  intro hx
  rw [MDate.ltB_iff] at hx
  omega

/-- The maximum fold stays inside the candidates. -/
theorem foldl_dateMax_mem : ∀ (ds : List MDate) (d : MDate),
    ds.foldl dateMax d = d ∨ ds.foldl dateMax d ∈ ds := by
  intro ds
  induction ds with
  | nil => intro d; exact Or.inl rfl
  | cons x xs ih =>
      intro d
      have hx : dateMax d x = d ∨ dateMax d x = x := by
        unfold dateMax; split <;> simp
      rcases ih (dateMax d x) with h | h
      · rcases hx with h2 | h2
        · left; rw [List.foldl_cons, h, h2]
        · right; rw [List.foldl_cons, h, h2]; exact List.mem_cons_self _ _
      · right; rw [List.foldl_cons]; exact List.mem_cons_of_mem _ h

/-- The minimum fold stays inside the candidates. -/
theorem foldl_dateMin_mem : ∀ (ds : List MDate) (d : MDate),
    ds.foldl dateMin d = d ∨ ds.foldl dateMin d ∈ ds := by
  intro ds
  induction ds with
  | nil => intro d; exact Or.inl rfl
  | cons x xs ih =>
      intro d
      have hx : dateMin d x = d ∨ dateMin d x = x := by
        unfold dateMin; split <;> simp
      rcases ih (dateMin d x) with h | h
      · rcases hx with h2 | h2
        · left; rw [List.foldl_cons, h, h2]
        · right; rw [List.foldl_cons, h, h2]; exact List.mem_cons_self _ _
      · right; rw [List.foldl_cons]; exact List.mem_cons_of_mem _ h

/-- `listMaxDate` of a non-empty list is one of its elements. -/
theorem listMaxDate_mem {l : List MDate} (h : l ≠ []) : listMaxDate l ∈ l := by
  cases l with
  | nil => exact absurd rfl h
  | cons d ds =>
      rcases foldl_dateMax_mem ds d with h2 | h2
      · rw [listMaxDate, h2]; exact List.mem_cons_self _ _
      · rw [listMaxDate]; exact List.mem_cons_of_mem _ h2

/-- `listMinDate` of a non-empty list is one of its elements. -/
theorem listMinDate_mem {l : List MDate} (h : l ≠ []) : listMinDate l ∈ l := by
  cases l with
  | nil => exact absurd rfl h
  | cons d ds =>
      rcases foldl_dateMin_mem ds d with h2 | h2
      · rw [listMinDate, h2]; exact List.mem_cons_self _ _
      · rw [listMinDate]; exact List.mem_cons_of_mem _ h2

/-- Summing per-key filtered sums over a duplicate-free cover of the keys
gives the total sum (the grouping partitions the rows). -/
theorem sum_filter_cover {α κ : Type} [BEq κ] [LawfulBEq κ] [DecidableEq κ]
    (key : α → κ)
    (g : α → Int) (ks : List κ) :
    ∀ l : List α, ks.Nodup → (∀ a ∈ l, key a ∈ ks) →
      (ks.map (fun k => ((l.filter (fun a => key a == k)).map g).sum)).sum
        = (l.map g).sum := by
  induction ks with
  | nil =>
      intro l _ hcov
      have hl : l = [] := by
        cases l with
        | nil => rfl
        | cons x xs => exact absurd (hcov x (by simp)) (by simp)
      subst hl; simp
  | cons k ks ih =>
      intro l hnd hcov
      obtain ⟨hk, hnd2⟩ := List.nodup_cons.mp hnd
      have hsplit :
          ((l.filter (fun a => key a == k)).map g).sum +
            ((l.filter (fun a => !(key a == k))).map g).sum = (l.map g).sum := by
        have hp := List.filter_append_perm (fun a => key a == k) l
        have := (hp.map g).sum_eq
        simpa [List.sum_append] using this
      have hcov2 : ∀ a ∈ l.filter (fun a => !(key a == k)), key a ∈ ks := by
        intro a ha
        rw [List.mem_filter] at ha
        have hmem := hcov a ha.1
        have hne : ¬ key a = k := by simpa using ha.2
        simpa [hne] using hmem
      have hterms : (ks.map (fun k2 =>
          ((l.filter (fun a => key a == k2)).map g).sum)).sum =
          (ks.map (fun k2 =>
          (((l.filter (fun a => !(key a == k))).filter
              (fun a => key a == k2)).map g).sum)).sum := by
        apply congrArg
        apply List.map_congr_left
        intro k2 hk2
        have hne : k2 ≠ k := fun he => hk (he ▸ hk2)
        have hfe : l.filter (fun a => key a == k2) =
            (l.filter (fun a => !(key a == k))).filter
              (fun a => key a == k2) := by
          rw [List.filter_filter]
          apply List.filter_congr
          intro x _
          by_cases h : key x = k2
          · simp [h, hne]
          · simp [h]
        rw [hfe]
      rw [List.map_cons, List.sum_cons, hterms,
        ih (l.filter (fun a => !(key a == k))) hnd2 hcov2, hsplit]

/-- Sorting the buckets only permutes them. -/
theorem sortBuckets_perm (bs : List WeekBucket) :
    List.Perm (sortBuckets bs) bs :=
  List.perm_insertionSort _ bs

/-- Every produced bucket aggregates exactly the rows carrying its key:
its cases are their sum, its start and end dates their min and max, and
its key is the key of at least one row. -/
theorem groupRows_sound {key : MDate → Nat × Nat} {rows : List HRow}
    {b : WeekBucket} (hb : b ∈ groupRows key rows) :
    (∃ r ∈ rows, key r.date = b.key) ∧
    b.cases = ((rows.filter (fun r => key r.date == b.key)).map (·.cases)).sum ∧
    b.start_date =
      listMinDate ((rows.filter (fun r => key r.date == b.key)).map (·.date)) ∧
    b.end_date =
      listMaxDate ((rows.filter (fun r => key r.date == b.key)).map (·.date)) := by
  unfold groupRows at hb
  rw [List.mem_map] at hb
  obtain ⟨k, hk, hbk⟩ := hb
  subst hbk
  rw [List.mem_dedup, List.mem_map] at hk
  obtain ⟨r, hr, hrk⟩ := hk
  exact ⟨⟨r, hr, hrk⟩, rfl, rfl, rfl⟩

/-- Every row's key is represented by a bucket. -/
theorem groupRows_covers {key : MDate → Nat × Nat} {rows : List HRow}
    {r : HRow} (hr : r ∈ rows) :
    ∃ b ∈ groupRows key rows, b.key = key r.date := by
  refine ⟨_, List.mem_map_of_mem _
    (List.mem_dedup.mpr (List.mem_map_of_mem _ hr)), rfl⟩

/-- The grouped cases sums add up to the total cases of the grouped rows. -/
theorem groupRows_sum (key : MDate → Nat × Nat) (rows : List HRow) :
    ((groupRows key rows).map (·.cases)).sum = (rows.map (·.cases)).sum := by
  unfold groupRows
  rw [List.map_map]
  refine Eq.trans ?_ (sum_filter_cover (fun r => key r.date) (·.cases) _ rows
    (List.nodup_dedup _)
    (fun a ha =>
      List.mem_dedup.mpr (List.mem_map_of_mem (fun r => key r.date) ha)))
  apply congrArg List.sum
  apply List.map_congr_left
  intro k _
  simp only [Function.comp_apply]

/-- C9.  Conservation of cases: for every record set, the sum of `cases`
over the weekly buckets `get_all_data_grouped_by_week` produces equals
the sum of `cases` over the source rows — the `%Y-%U` grouping neither
drops nor double-counts any record's cases. -/
theorem claimC9 (rows : List HRow) :
    ((get_all_data_grouped_by_week rows).map (·.cases)).sum
      = (rows.map (·.cases)).sum := by
  unfold get_all_data_grouped_by_week
  split
  · rename_i h
    rw [List.isEmpty_iff] at h
    subst h
    rfl
  · rw [((sortBuckets_perm _).map (·.cases)).sum_eq]
    exact groupRows_sum _ rows

/-- The record set of claim C4's literal scenario:
{2024-06-10: 10, 2024-06-12: 5, 2024-06-18: 7}. -/
def c4Rows : List HRow :=
  [⟨⟨2024, 6, 10⟩, 10⟩, ⟨⟨2024, 6, 12⟩, 5⟩, ⟨⟨2024, 6, 18⟩, 7⟩]

/-- A record set holding a Sunday record and the following Monday's
record. -/
def sundayRows : List HRow :=
  [⟨⟨2024, 6, 16⟩, 3⟩, ⟨⟨2024, 6, 17⟩, 4⟩]

/-- C4 counterexample: the aggregator does not group by ISO-8601
Monday-started weeks.  2024-06-16 is a Sunday and 2024-06-17 the
following Monday: an ISO (year, week) grouping separates them into two
buckets, but `get_all_data_grouped_by_week` — which keys on
`strftime('%Y-%U')`, whose weeks start on Sunday — merges them into a
single bucket with cases 7. -/
theorem claimC4_counterexample :
    (get_all_data_grouped_by_week sundayRows).length = 1 ∧
    specIsoBucketCount sundayRows = 2 ∧
    get_all_data_grouped_by_week sundayRows =
      [{ key := (2024, 24), cases := 7, start_date := ⟨2024, 6, 16⟩,
         end_date := ⟨2024, 6, 17⟩ }] := by
  refine ⟨?_, ?_, ?_⟩ <;> decide

/-- C4 (amended).  The weekly aggregator groups records into
`(calendar year, %U week)` buckets — `%U` weeks start on Sunday, not the
claim's ISO Monday — summing `cases` per bucket and recording the
bucket's min and max record dates; on the claim's record set
{2024-06-10: 10, 2024-06-12: 5, 2024-06-18: 7} it produces exactly the
two stated buckets, with cases 15 (record dates 06-10..06-12) and
cases 7 (06-18), because none of those records falls on the Sunday that
separates the two conventions. -/
theorem claimC4 (rows : List HRow) :
    get_all_data_grouped_by_week c4Rows =
      [{ key := (2024, 23), cases := 15, start_date := ⟨2024, 6, 10⟩,
         end_date := ⟨2024, 6, 12⟩ },
       { key := (2024, 24), cases := 7, start_date := ⟨2024, 6, 18⟩,
         end_date := ⟨2024, 6, 18⟩ }] ∧
    (∀ b ∈ get_all_data_grouped_by_week rows,
      (∃ r ∈ rows, (r.date.year, r.date.uWeek) = b.key) ∧
      b.cases = ((rows.filter
        (fun r => (r.date.year, r.date.uWeek) == b.key)).map (·.cases)).sum ∧
      b.start_date = listMinDate ((rows.filter
        (fun r => (r.date.year, r.date.uWeek) == b.key)).map (·.date)) ∧
      b.end_date = listMaxDate ((rows.filter
        (fun r => (r.date.year, r.date.uWeek) == b.key)).map (·.date))) ∧
    (∀ r ∈ rows, ∃ b ∈ get_all_data_grouped_by_week rows,
      b.key = (r.date.year, r.date.uWeek)) := by
  refine ⟨by decide, ?_, ?_⟩
  · intro b hb
    unfold get_all_data_grouped_by_week at hb
    split at hb
    · simp at hb
    · exact groupRows_sound ((sortBuckets_perm _).mem_iff.mp hb)
  · intro r hr
    have hne : rows.isEmpty = false := by
      cases rows with
      | nil => simp at hr
      | cons x xs => rfl
    unfold get_all_data_grouped_by_week
    rw [if_neg (by simp [hne])]
    obtain ⟨b, hb, hkey⟩ := groupRows_covers hr
    exact ⟨b, (sortBuckets_perm _).mem_iff.mpr hb, hkey⟩

/-- C4 witness: the amended theorem applied to the claim's record set and
its first bucket. -/
theorem claimC4_witness :
    ∃ r ∈ c4Rows, (r.date.year, r.date.uWeek) =
      ({ key := (2024, 23), cases := 15, start_date := ⟨2024, 6, 10⟩,
         end_date := ⟨2024, 6, 12⟩ } : WeekBucket).key :=
  ((claimC4 c4Rows).2.1 _ (by decide)).1

/-- C6.  `risk_level` is a deterministic function of `cases` alone (both
implementations are embedded as pure functions of the integer; the
`DatabaseManager`/`TickParser` variant re-reads thresholds from the
configuration, captured by the `defaultThresholds` argument, and
coincides with the hard-coded `app.py` variant under the default
thresholds): 0 maps to the no-data level, (0, 50) to Низкий/Low,
[50, 100) to Умеренный/Moderate, [100, 150) to Высокий/High and
[150, ∞) to Очень высокий/VeryHigh — boundaries exactly at 50, 100,
150. -/
theorem claimC6 (n : Int) :
    app_calculate_risk_level (.vint n) =
      db_calculate_risk_level defaultThresholds (.vint n) ∧
    (n = 0 → app_calculate_risk_level (.vint n) = "Нет данных") ∧
    (0 < n → n < 50 → app_calculate_risk_level (.vint n) = "Низкий") ∧
    (50 ≤ n → n < 100 → app_calculate_risk_level (.vint n) = "Умеренный") ∧
    (100 ≤ n → n < 150 → app_calculate_risk_level (.vint n) = "Высокий") ∧
    (150 ≤ n → app_calculate_risk_level (.vint n) = "Очень высокий") := by
  refine ⟨?_, ?_, ?_, ?_, ?_, ?_⟩ <;> intros <;>
    simp only [app_calculate_risk_level, db_calculate_risk_level,
      defaultThresholds] <;>
    split_ifs <;> first | rfl | omega

/-- C6 witness: the boundary values 0, 49, 50, 99, 100, 149, 150. -/
theorem claimC6_witness :
    app_calculate_risk_level (.vint 0) = "Нет данных" ∧
    app_calculate_risk_level (.vint 49) = "Низкий" ∧
    app_calculate_risk_level (.vint 50) = "Умеренный" ∧
    app_calculate_risk_level (.vint 99) = "Умеренный" ∧
    app_calculate_risk_level (.vint 100) = "Высокий" ∧
    app_calculate_risk_level (.vint 149) = "Высокий" ∧
    app_calculate_risk_level (.vint 150) = "Очень высокий" :=
  ⟨(claimC6 0).2.1 rfl,
   (claimC6 49).2.2.1 (by decide) (by decide),
   (claimC6 50).2.2.2.1 (by decide) (by decide),
   (claimC6 99).2.2.2.1 (by decide) (by decide),
   (claimC6 100).2.2.2.2.1 (by decide) (by decide),
   (claimC6 149).2.2.2.2.1 (by decide) (by decide),
   (claimC6 150).2.2.2.2.2 (by decide)⟩

/-- The off-season candidate of claim C1's scenario: dated 2024-01-15
with 25 extracted bites, carrying every field the pipeline validator
requires. -/
def c1Item : Dict :=
  [("date", .vdate ⟨2024, 1, 15⟩), ("cases", .vint 25),
   ("risk_level", .vstr "Низкий"), ("source", .vstr "x")]

/-- C1 counterexample: the validator the ingestion pipeline runs,
`TickParser._validate_data_item`, accepts the off-season candidate
(dated 2024-01-15 with cases 25) — the claim's "rejected by the
validator" fails — and the store's insert path accepts the row when
handed the validated batch, so no layer of the write path enforces the
season invariant and a row is created. -/
theorem claimC1_counterexample :
    validate_data_item ⟨2026, 10, 12⟩ c1Item = true ∧
    save_tick_data defaultThresholds [] 1 (.plist [c1Item]) =
      .ok ([{ id := 1, date := ⟨2024, 1, 15⟩, cases := 25,
              risk_level := "Низкий", source := "x", title := "",
              content := "", url := "" }], 2, 1) := by
  exact ⟨by decide, rfl⟩


/-- A successful source check only appends issues. -/
theorem verify_step5_prefix {item : Dict} {i4 i5 : List VIssue}
    (h : verify_step5 item i4 = .ok i5) : ∃ t, i5 = i4 ++ t := by
  unfold verify_step5 at h
  repeat' split at h
  all_goals
    first
    | exact Except.noConfusion h
    | (simp only [Except.ok.injEq] at h
       first
       | exact ⟨_, h.symm⟩
       | (subst h; exact ⟨[], (List.append_nil i4).symm⟩))

/-- A successful url check only appends issues. -/
theorem verify_step6_prefix {item : Dict} {i5 i6 : List VIssue}
    (h : verify_step6 item i5 = .ok i6) : ∃ t, i6 = i5 ++ t := by
  unfold verify_step6 at h
  repeat' split at h
  all_goals
    first
    | exact Except.noConfusion h
    | (simp only [Except.ok.injEq] at h
       first
       | exact ⟨_, h.symm⟩
       | (subst h; exact ⟨[], (List.append_nil i5).symm⟩))

/-- A successful source/url stage only appends issues, and the verdict
bit is the emptiness of the final issue list. -/
theorem verify_steps56_prefix {item : Dict} {i4 : List VIssue} {b : Bool}
    {iss : List VIssue} (h : verify_steps56 item i4 = .ok (b, iss)) :
    ∃ t, iss = i4 ++ t ∧ b = iss.isEmpty := by
  unfold verify_steps56 at h
  split at h
  · simp at h
  · rename_i i5 h5
    split at h
    · simp at h
    · rename_i i6 h6
      obtain ⟨hb, hi⟩ : i6.isEmpty = b ∧ i6 = iss := by simpa using h
      obtain ⟨t5, ht5⟩ := verify_step5_prefix h5
      obtain ⟨t6, ht6⟩ := verify_step6_prefix h6
      exact ⟨t5 ++ t6, by rw [← hi, ht6, ht5, List.append_assoc],
        by rw [← hb, hi]⟩

/-- An issue-free first verification stage with a positive integer
`cases` field forces the date field to hold an in-season date. -/
theorem verify_step4_season {today : MDate} {item : Dict} {n : Int}
    (h : verify_step4 today item = .ok [])
    (hg : dictGet item "cases" (.vint 0) = .vint n) (hn : 0 < n) :
    is_tick_season (dictGet item "date" .vnone) = true := by
  unfold verify_step4 at h
  rw [hg] at h
  by_cases hdh : dictHas item "date" = true
  · rw [if_pos hdh] at h
    rcases hval : dictGet item "date" .vnone with _ | m | str | dd
    all_goals rw [hval] at h
    all_goals dsimp only at h
    · simp only [Except.ok.injEq] at h
      have h2 := (List.append_eq_nil.mp h).1
      have hw := (List.append_eq_nil.mp h2).2
      rw [hdh] at hw
      simp [isDateV] at hw
    · simp only [Except.ok.injEq] at h
      have h2 := (List.append_eq_nil.mp h).1
      have hw := (List.append_eq_nil.mp h2).2
      rw [hdh] at hw
      simp [isDateV] at hw
    · simp only [Except.ok.injEq] at h
      have h2 := (List.append_eq_nil.mp h).1
      have hw := (List.append_eq_nil.mp h2).2
      rw [hdh] at hw
      simp [isDateV] at hw
    · simp only [pyGtZero] at h
      simp only [Except.ok.injEq] at h
      by_contra hs
      rw [Bool.not_eq_true] at hs
      have hif := (List.append_eq_nil.mp h).2
      have hd : (decide (0 < n) : Bool) = true := by simpa using hn
      rw [hd, hs] at hif
      simp at hif
  · rw [if_neg hdh] at h
    have hdhf : dictHas item "date" = false := by
      simpa using hdh
    simp only [Except.ok.injEq] at h
    have h2 := (List.append_eq_nil.mp h).1
    have h1 := (List.append_eq_nil.mp h2).1
    have hx := (List.append_eq_nil.mp h1).1
    have hx2 := (List.append_eq_nil.mp hx).1
    have hf : fieldOk item "date" = false := by
      unfold fieldOk
      rw [hdhf]
      rfl
    rw [hf] at hx2
    simp at hx2

/-- C1 (amended).  The season invariant lives only in
`DataVerifier.verify_data_quality`: every candidate it reports valid
whose `cases` field holds a positive integer carries a date field with a
date inside the tick season (Apr 20 – Oct 10), so the spec's off-season
example would be flagged there.  But the validator the ingestion
pipeline actually runs before storing, `TickParser._validate_data_item`,
performs no season check and accepts that same example (2024-01-15,
25 bites) — off-season candidates are not rejected on the write path,
and `DataVerifier` is never invoked by the pipeline. -/
theorem claimC1 (today : MDate) (item : Dict) (iss : List VIssue) (n : Int)
    (hok : verify_data_quality today item = .ok (true, iss))
    (hc : dictGet item "cases" .vnone = .vint n) (hn : 0 < n) :
    is_tick_season (dictGet item "date" .vnone) = true ∧
    validate_data_item ⟨2026, 10, 12⟩ c1Item = true := by
  refine ⟨?_, by decide⟩
  have hcl : List.lookup "cases" item = some (.vint n) := by
    unfold dictGet at hc
    cases hl : List.lookup "cases" item with
    | none => rw [hl] at hc; simp at hc
    | some v => rw [hl] at hc; simp at hc; rw [hc]
  have hget0 : dictGet item "cases" (.vint 0) = .vint n := by
    unfold dictGet; rw [hcl]; rfl
  unfold verify_data_quality at hok
  split at hok
  · simp at hok
  · rename_i i4 heq4
    obtain ⟨t, hts, hb⟩ := verify_steps56_prefix hok
    have hissnil : iss = [] := List.isEmpty_iff.mp hb.symm
    have h4 : i4 = [] := by
      rw [hissnil] at hts
      exact (List.append_eq_nil.mp hts.symm).1
    rw [h4] at heq4
    exact verify_step4_season heq4 hget0 hn

/-- C1 witness: the amended theorem applied to an in-season candidate
(2024-06-15, cases 73) that the verifier accepts. -/
theorem claimC1_witness :
    is_tick_season (dictGet
      [("date", .vdate ⟨2024, 6, 15⟩), ("cases", .vint 73),
       ("source", .vstr "x")] "date" .vnone) = true ∧
    validate_data_item ⟨2026, 10, 12⟩ c1Item = true :=
  claimC1 ⟨2026, 10, 12⟩
    [("date", .vdate ⟨2024, 6, 15⟩), ("cases", .vint 73),
     ("source", .vstr "x")] [] 73 rfl (by decide) (by decide)

/-- Every value either sweep returns passed the (0, 10000] filter. -/
theorem sweepFind_bounds : ∀ (rs : List RE) (t : List Char) (v : Nat),
    sweepFind rs t = some v → 0 < v ∧ v ≤ 10000 := by
  intro rs
  induction rs with
  | nil => intro t v h; simp [sweepFind] at h
  | cons r rest ih =>
      intro t v h
      unfold sweepFind at h
      split at h
      · split at h
        · rename_i hcond
          simp only [Option.some.injEq] at h
          subst h
          simpa using hcond
        · exact ih t v h
      · exact ih t v h

/-- A literal-word pattern matches only where the word is a prefix. -/
theorem mrun_litToks : ∀ (l : List Char) (s : List Char)
    (x : Option Nat × List Char),
    x ∈ mrun ((l.map (fun c => RE.tok (fun y => y == c))).foldr
      RE.cat RE.eps) s → l.isPrefixOf s = true := by
  intro l
  induction l with
  | nil => intro s x _; cases s <;> rfl
  | cons c cs ih =>
      intro s x hx
      simp only [List.map_cons, List.foldr_cons] at hx
      rcases s with _ | ⟨a, as⟩
      · simp [mrun] at hx
      · simp only [mrun] at hx
        by_cases hac : (a == c) = true
        · rw [if_pos hac] at hx
          simp only [List.flatMap_cons, List.flatMap_nil,
            List.append_nil, List.mem_map] at hx
          obtain ⟨y, hy, _⟩ := hx
          have hpre := ih as y hy
          show ((c == a) && cs.isPrefixOf as) = true
          have : c = a := (beq_iff_eq.mp hac).symm
          simp [this, hpre]
        · rw [if_neg hac] at hx
          simp at hx

/-- A keyword-proximity pattern can only match a text containing the
keyword. -/
theorem reSearch_keyword {kw : String} : ∀ (t : List Char) {x : Option Nat},
    reSearch (keywordRE kw) t = some x → containsSub t kw.data = true := by
  intro t
  induction t with
  | nil =>
      intro x h
      unfold reSearch at h
      cases hm : mrun (keywordRE kw) [] with
      | nil => rw [hm] at h; simp at h
      | cons y ys =>
          have hy : y ∈ mrun (keywordRE kw) [] := by rw [hm]; simp
          unfold keywordRE at hy
          simp only [mrun, List.mem_flatMap, List.mem_map] at hy
          obtain ⟨z, hz, _⟩ := hy
          have := mrun_litToks kw.data [] z hz
          unfold containsSub
          rw [if_pos this]
  | cons c cs ih =>
      intro x h
      unfold reSearch at h
      cases hm : mrun (keywordRE kw) (c :: cs) with
      | cons y ys =>
          have hy : y ∈ mrun (keywordRE kw) (c :: cs) := by rw [hm]; simp
          unfold keywordRE at hy
          simp only [mrun, List.mem_flatMap, List.mem_map] at hy
          obtain ⟨z, hz, _⟩ := hy
          have := mrun_litToks kw.data (c :: cs) z hz
          unfold containsSub
          rw [if_pos this]
      | nil =>
          rw [hm] at h
          unfold containsSub
          split
          · rfl
          · exact ih h

/-- Texts containing no keyword defeat the whole keyword sweep. -/
theorem sweepFind_keywords_none : ∀ (kws : List String) (t : List Char),
    (∀ kw ∈ kws, containsSub t kw.data = false) →
    sweepFind (kws.map keywordRE) t = none := by
  intro kws
  induction kws with
  | nil => intro t _; rfl
  | cons kw rest ih =>
      intro t hall
      rw [List.map_cons]
      unfold sweepFind
      cases hr : reSearch (keywordRE kw) t with
      | some x =>
          have := reSearch_keyword t hr
          rw [hall kw (by simp)] at this
          simp at this
      | none =>
          exact ih t (fun k hk => hall k (by simp [hk]))

/-- C8 counterexample: the text "5 человек" contains none of the five
keywords {клещ, укус, обращение, случай, присасывание}, yet the
first-sweep pattern `(\d+)\s*(?:человек|жител)` extracts 5 — the
extractor does fabricate a number for keyword-free text. -/
theorem claimC8_counterexample :
    extract_case_number "5 человек" = 5 ∧
    containsAnyKeyword "5 человек" = false := by
  exact ⟨rfl, rfl⟩

/-- C8 (amended).  The range half of the claim holds: every result of
the extractor is 0 or lies in (0, 10000], and a text matching no
first-sweep pattern and containing none of the keywords yields 0.  The
keyword half fails as stated: the first-sweep cascade fires without any
keyword ("5 человек" → 5), so keyword absence alone does not prevent a
number from being extracted. -/
theorem claimC8 (text : String) :
    (extract_case_number text = 0 ∨
      (0 < extract_case_number text ∧ extract_case_number text ≤ 10000)) ∧
    (sweepFind caseRegexList (text.data.map rlower) = none →
      containsAnyKeyword text = false → extract_case_number text = 0) := by
  constructor
  · cases h1 : sweepFind caseRegexList (text.data.map rlower) with
    | some v =>
        have he : extract_case_number text = (v : Int) := by
          unfold extract_case_number
          dsimp only
          rw [h1]
        have hb := sweepFind_bounds _ _ _ h1
        right
        rw [he]
        exact ⟨by exact_mod_cast hb.1, by exact_mod_cast hb.2⟩
    | none =>
        cases h2 : sweepFind (caseKeywords.map keywordRE)
            (text.data.map rlower) with
        | some v =>
            have he : extract_case_number text = (v : Int) := by
              unfold extract_case_number
              dsimp only
              rw [h1, h2]
            have hb := sweepFind_bounds _ _ _ h2
            right
            rw [he]
            exact ⟨by exact_mod_cast hb.1, by exact_mod_cast hb.2⟩
        | none =>
            left
            unfold extract_case_number
            dsimp only
            rw [h1, h2]
  · intro h1 h2
    unfold extract_case_number
    dsimp only
    rw [h1]
    rw [sweepFind_keywords_none caseKeywords (text.data.map rlower) ?_]
    intro kw hk
    unfold containsAnyKeyword at h2
    rw [List.any_eq_false] at h2
    simpa using h2 kw hk

/-- C8 witness: a keyword-free, pattern-free text yields 0. -/
theorem claimC8_witness : extract_case_number "обычный текст" = 0 :=
  (claimC8 "обычный текст").2 rfl rfl

/-! ### Claim C5: date rejection vs. coercion in parse_article_page -/

/-- Claim C5 counterexample: an entry whose only extractable date is the
future date 2031-01-15 (from the URL path) is NOT rejected — the date is
coerced to today (src/src/parser.py:299-301 replaces a future date with
`datetime.now()` and keeps the record), contradicting the claim that no
record is yielded and no boundary coercion happens. -/
theorem claimC5_counterexample :
    parse_article_page_date ⟨2026, 10, 12⟩ none "" "https://a.ru/2031/01/15/x"
      = some ⟨2026, 10, 12⟩ := rfl

/-- Claim C5 (corrected): what `parse_article_page` actually does with
dates.  (1) A non-empty `date_text` that `dateutil` parses is used with
no validation at all — future and pre-2020 dates pass through.  (2) On
the regex cascade a future date is coerced to today and the record kept;
only a pre-2020 date rejects the record.  (3) The URL fallback validates
the same way.  (4) Only when every stage fails is the entry skipped. -/
theorem claimC5 (today : MDate) (fuzzy : Option MDate)
    (dtext url : String) :
    (dtext.isEmpty = false → ∀ d, fuzzy = some d →
        parse_article_page_date today fuzzy dtext url = some d) ∧
    ((if dtext.isEmpty then none else fuzzy) = none →
      (∀ d, (if dtext.isEmpty then none
              else firstParsedDate (dtext.data.map rlower)) = some d →
          parse_article_page_date today fuzzy dtext url =
            (if today.ltB d then some today
             else if d.ltB ⟨2020, 1, 1⟩ then none else some d)) ∧
      ((if dtext.isEmpty then none
         else firstParsedDate (dtext.data.map rlower)) = none →
        (∀ r d, scanUrlDate url.data = some r →
            mkDateValid r.1 r.2.1 r.2.2 = some d →
            parse_article_page_date today fuzzy dtext url =
              (if today.ltB d then some today
               else if d.ltB ⟨2020, 1, 1⟩ then none else some d)) ∧
        (scanUrlDate url.data = none →
          parse_article_page_date today fuzzy dtext url = none))) := by
  refine ⟨?_, ?_⟩
  · intro he d hf
    unfold parse_article_page_date
    dsimp only
    rw [he, hf]
    rfl
  · intro hs1
    refine ⟨?_, ?_⟩
    · intro d h2
      unfold parse_article_page_date
      dsimp only
      rw [hs1, h2]
      unfold validateLoopDate
      rfl
    · intro h2
      refine ⟨?_, ?_⟩
      · intro r d h3 h4
        unfold parse_article_page_date
        dsimp only
        rw [hs1, h2, h3]
        dsimp only
        rw [h4]
        unfold validateLoopDate
        rfl
      · intro h3
        unfold parse_article_page_date
        dsimp only
        rw [hs1, h2, h3]

/-- Witness for claimC5: the fuzzy passthrough keeps a future date
unvalidated, and a pre-2020 regex date rejects the record. -/
theorem claimC5_witness :
    parse_article_page_date ⟨2026, 10, 12⟩ (some ⟨2031, 5, 1⟩) "x" "u"
        = some ⟨2031, 5, 1⟩ ∧
    parse_article_page_date ⟨2026, 10, 12⟩ none "15.03.2019" "u" = none := by
  constructor
  · exact (claimC5 ⟨2026, 10, 12⟩ (some ⟨2031, 5, 1⟩) "x" "u").1 rfl _ rfl
  · have h := ((claimC5 ⟨2026, 10, 12⟩ none "15.03.2019" "u").2 rfl).1
      ⟨2019, 3, 15⟩ rfl
    rw [h]
    decide

/-! ### Claim C10: get_weekly_data totality and nearest-row selection -/

/-- The strict date order is irreflexive. -/
theorem MDate.ltB_irrefl (a : MDate) : a.ltB a = false := by
  rw [Bool.eq_false_iff]
  intro hx
  rw [MDate.ltB_iff] at hx
  omega

/-- The `pickNewest` fold yields `none` only from an empty list and an
empty accumulator. -/
theorem foldl_pickNewest_none : ∀ (l : List Row) (acc : Option Row),
    l.foldl pickNewest acc = none → l = [] ∧ acc = none := by
  intro l
  induction l with
  | nil => intro acc h; exact ⟨rfl, h⟩
  | cons x xs ih =>
      intro acc h
      rw [List.foldl_cons] at h
      have h2 := (ih _ h).2
      cases acc with
      | none => exact Option.noConfusion h2
      | some b =>
          unfold pickNewest at h2
          split at h2 <;> (try split at h2) <;> exact Option.noConfusion h2

/-- A `some` result of the `pickNewest` fold is a member of the list (or
the accumulator) and is not older than any candidate. -/
theorem foldl_pickNewest_spec : ∀ (l : List Row) (acc : Option Row) (rr : Row),
    l.foldl pickNewest acc = some rr →
    (rr ∈ l ∨ acc = some rr) ∧
    (∀ r2 ∈ l, rr.date.ltB r2.date = false) ∧
    (∀ b, acc = some b → rr.date.ltB b.date = false) := by
  intro l
  induction l with
  | nil =>
      intro acc rr h
      rw [List.foldl_nil] at h
      refine ⟨Or.inr h, ?_, ?_⟩
      · intro r2 h2; exact absurd h2 (List.not_mem_nil _)
      · intro b hb
        rw [h] at hb
        injection hb with hb2
        rw [hb2]
        exact MDate.ltB_irrefl _
  | cons x xs ih =>
      intro acc rr h
      rw [List.foldl_cons] at h
      obtain ⟨hmem, hall, hacc⟩ := ih (pickNewest acc x) rr h
      have hax : rr.date.ltB x.date = false ∧
          (∀ b, acc = some b → rr.date.ltB b.date = false) ∧
          (rr ∈ xs ∨ rr = x ∨ acc = some rr) := by
        cases acc with
        | none =>
            have hx := hacc x rfl
            refine ⟨hx, ?_, ?_⟩
            · intro b hb; exact Option.noConfusion hb
            · rcases hmem with h1 | h1
              · exact Or.inl h1
              · injection h1 with e
                exact Or.inr (Or.inl e.symm)
        | some b =>
            by_cases hbx : b.date.ltB x.date = true
            · have hpn : pickNewest (some b) x = some x := by
                simp [pickNewest, hbx]
              have hx := hacc x hpn
              refine ⟨hx, ?_, ?_⟩
              · intro b2 hb2
                injection hb2 with e
                subst e
                rw [Bool.eq_false_iff]
                intro hc
                have hcx := MDate.ltB_trans hc hbx
                rw [hcx] at hx
                exact Bool.noConfusion hx
              · rcases hmem with h1 | h1
                · exact Or.inl h1
                · rw [hpn] at h1
                  injection h1 with e
                  exact Or.inr (Or.inl e.symm)
            · have hbx2 : b.date.ltB x.date = false := by
                rw [Bool.eq_false_iff]; exact hbx
              have hpn : pickNewest (some b) x = some b := by
                simp [pickNewest, hbx2]
              have hb := hacc b hpn
              refine ⟨MDate.ltB_false_trans hb hbx2, ?_, ?_⟩
              · intro b2 hb2
                injection hb2 with e
                subst e
                exact hb
              · rcases hmem with h1 | h1
                · exact Or.inl h1
                · rw [hpn] at h1
                  injection h1 with e
                  exact Or.inr (Or.inr (congrArg some e))
      refine ⟨?_, ?_, hax.2.1⟩
      · rcases hax.2.2 with h1 | h1 | h1
        · exact Or.inl (List.mem_cons_of_mem _ h1)
        · exact Or.inl (by rw [h1]; exact List.mem_cons_self _ _)
        · exact Or.inr h1
      · intro r2 h2
        rcases List.mem_cons.mp h2 with h3 | h3
        · rw [h3]; exact hax.1
        · exact hall r2 h3

/-- Claim C10: `get_weekly_data` is total and returns the newest stored
row dated at or before `today - 7*weeks_ago` days; with no such row it
returns the `{0, target, 'Нет данных'}` default, and on a store error
the `{0, today, 'Нет данных'}` default — in every case a well-formed
date (src/src/database.py:177-209). -/
theorem claimC10 (today : MDate) (db : Except Unit (List Row)) (w : Nat)
    (htoday : today.WellFormed)
    (hdb : ∀ rows, db = Except.ok rows → ∀ r ∈ rows, r.date.WellFormed) :
    (get_weekly_data today db w).date.WellFormed ∧
    (∀ e, db = Except.error e →
        get_weekly_data today db w =
          { cases := 0, date := today, risk_level := "Нет данных" }) ∧
    (∀ rows, db = Except.ok rows →
        ((∀ r ∈ rows, r.date.leB (today.subDays (7 * w)) = false) ∧
          get_weekly_data today db w =
            { cases := 0, date := today.subDays (7 * w),
              risk_level := "Нет данных" }) ∨
        (∃ rr, rr ∈ rows ∧ rr.date.leB (today.subDays (7 * w)) = true ∧
          get_weekly_data today db w =
            { cases := rr.cases, date := rr.date,
              risk_level := rr.risk_level } ∧
          ∀ r2 ∈ rows, r2.date.leB (today.subDays (7 * w)) = true →
            rr.date.ltB r2.date = false)) := by
  cases db with
  | error e =>
      exact ⟨htoday, fun e2 _ => rfl, fun rows h => Except.noConfusion h⟩
  | ok rows =>
      have hr : ∀ r ∈ rows, r.date.WellFormed := hdb rows rfl
      have key :
          ((∀ r ∈ rows, r.date.leB (today.subDays (7 * w)) = false) ∧
            get_weekly_data today (Except.ok rows) w =
              { cases := 0, date := today.subDays (7 * w),
                risk_level := "Нет данных" }) ∨
          (∃ rr, rr ∈ rows ∧ rr.date.leB (today.subDays (7 * w)) = true ∧
            get_weekly_data today (Except.ok rows) w =
              { cases := rr.cases, date := rr.date,
                risk_level := rr.risk_level } ∧
            ∀ r2 ∈ rows, r2.date.leB (today.subDays (7 * w)) = true →
              rr.date.ltB r2.date = false) := by
        cases hf : (rows.filter
            (fun r => r.date.leB (today.subDays (7 * w)))).foldl
              pickNewest none with
        | none =>
            left
            have hnil := (foldl_pickNewest_none _ _ hf).1
            constructor
            · intro r h2
              rw [Bool.eq_false_iff]
              intro hx
              have hmem3 : r ∈ rows.filter
                  (fun r => r.date.leB (today.subDays (7 * w))) :=
                List.mem_filter.mpr ⟨h2, hx⟩
              rw [hnil] at hmem3
              exact absurd hmem3 (List.not_mem_nil _)
            · unfold get_weekly_data
              dsimp only
              rw [hf]
        | some rr =>
            right
            obtain ⟨hmem, hall, _⟩ := foldl_pickNewest_spec _ _ _ hf
            have hmem2 : rr ∈ rows.filter
                (fun r => r.date.leB (today.subDays (7 * w))) := by
              rcases hmem with h1 | h1
              · exact h1
              · exact Option.noConfusion h1
            have hm := List.mem_filter.mp hmem2
            refine ⟨rr, hm.1, by simpa using hm.2, ?_, ?_⟩
            · unfold get_weekly_data
              dsimp only
              rw [hf]
            · intro r2 h2 h3
              exact hall r2 (List.mem_filter.mpr ⟨h2, by simpa using h3⟩)
      refine ⟨?_, fun e2 h => Except.noConfusion h, fun rows2 h => ?_⟩
      · rcases key with ⟨_, heq⟩ | ⟨rr, hmem, _, heq, _⟩
        · rw [heq]; exact MDate.wf_subDays htoday _
        · rw [heq]; exact hr rr hmem
      · injection h with h2
        subst h2
        exact key

/-- Witness for claimC10: a concrete one-row store. -/
theorem claimC10_witness :
    (get_weekly_data ⟨2026, 10, 12⟩
        (Except.ok [⟨1, ⟨2026, 9, 1⟩, 5, "низкий", "s", "t", "c", "u"⟩])
        0).date.WellFormed := by
  refine (claimC10 ⟨2026, 10, 12⟩
      (Except.ok [⟨1, ⟨2026, 9, 1⟩, 5, "низкий", "s", "t", "c", "u"⟩]) 0
      (by decide) ?_).1
  intro rows h
  injection h with h2
  subst h2
  decide

/-! ### Claim C2: URL deduplication in update_all_data -/

/-- At most one stored row per non-empty url. -/
def urlUnique (store : List Row) : Prop :=
  List.Pairwise (fun a b => a.url = "" ∨ a.url ≠ b.url) store

/-- The candidate record of the C2 witness. -/
def c2Item : Dict :=
  [("date", .vdate ⟨2026, 6, 1⟩), ("cases", .vint 7),
   ("risk_level", .vstr "Низкий"), ("source", .vstr "x"),
   ("url", .vstr "http://e.ru/a"), ("content", .vstr "cc")]

/-- The pre-existing stored row of the C2 witness, carrying the same url. -/
def c2ExRow : Row :=
  ⟨1, ⟨2026, 6, 1⟩, 3, "Низкий", "x", "t", "c", "http://e.ru/a"⟩

/-- `save_tick_data` handed the dict that `update_all_data` passes
iterates over the dict's *keys*; the first key raises `TypeError` at
`item['date']`, the transaction rolls back, and the store is unchanged
(an empty dict makes zero iterations and also changes nothing). -/
theorem save_tick_data_pdict (t : RiskThresholds) (store : List Row)
    (nid : Nat) (d : Dict) :
    save_tick_data t store nid (.pdict d) =
      if d.isEmpty then .ok (store, nid, 0) else .error .typeError := by
  cases d with
  | nil => rfl
  | cons kv rest => rfl

/-- The row update of the deduplicator touches only `cases` and
`content`; `url` is preserved. -/
theorem update_row_url (rid : Nat) (item : Dict) (r : Row) :
    (if r.id = rid then
        { r with cases := asIntD (dictGet item "cases" (.vint 0)),
                 content := asStrD (dictGet item "content" (.vstr "")) }
      else r).url = r.url := by
  split <;> rfl

/-- `update_tick_data` preserves per-url uniqueness. -/
theorem urlUnique_update (store : List Row) (rid : Nat) (item : Dict)
    (h : urlUnique store) : urlUnique (update_tick_data store rid item) := by
  unfold urlUnique update_tick_data
  rw [List.pairwise_map]
  unfold urlUnique at h
  refine h.imp ?_
  intro a b hab
  have ha := update_row_url rid item a
  have hb := update_row_url rid item b
  rw [ha, hb]
  exact hab

/-- One pipeline ingest either leaves the store unchanged or rewrites
one existing row in place. -/
theorem process_item_shape (t : RiskThresholds) (today : MDate)
    (store : List Row) (nid : Nat) (item : Dict) :
    process_item t today (store, nid) item = (store, nid) ∨
    ∃ ex : Row, process_item t today (store, nid) item =
      (update_tick_data store ex.id item, nid) := by
  by_cases hv : (!validate_data_item today item) = true
  · left
    unfold process_item
    dsimp only
    rw [if_pos hv]
  · cases hg : get_tick_data_by_url store (dictGet item "url" PyVal.vnone) with
    | some ex =>
        right
        refine ⟨ex, ?_⟩
        unfold process_item
        dsimp only
        rw [if_neg hv, hg]
    | none =>
        left
        unfold process_item
        dsimp only
        rw [if_neg hv, hg]
        dsimp only
        rw [save_tick_data_pdict]
        by_cases hi : List.isEmpty item = true
        · rw [if_pos hi]
        · rw [if_neg hi]

/-- Invariant of the whole ingest loop: the row count never changes and
per-url uniqueness is preserved. -/
theorem process_fold_inv (t : RiskThresholds) (today : MDate) :
    ∀ (items : List Dict) (store : List Row) (nid : Nat),
    ((items.foldl (process_item t today) (store, nid)).1.length
        = store.length) ∧
    (urlUnique store →
      urlUnique (items.foldl (process_item t today) (store, nid)).1) := by
  intro items
  induction items with
  | nil => intro store nid; exact ⟨rfl, fun h => h⟩
  | cons x xs ih =>
      intro store nid
      rw [List.foldl_cons]
      rcases process_item_shape t today store nid x with h | ⟨ex, h⟩
      · rw [h]; exact ih store nid
      · rw [h]
        have hlen : (update_tick_data store ex.id x).length = store.length :=
          List.length_map _ _
        refine ⟨?_, ?_⟩
        · rw [(ih _ nid).1, hlen]
        · intro hu
          exact (ih _ nid).2 (urlUnique_update store ex.id x hu)

/-- Claim C2: a validated candidate whose non-empty url already exists
in the store makes `update_all_data` update that row's mutable fields in
place (src/src/parser.py:979-985); across any ingest sequence per-url
uniqueness is preserved and the row count never increases (the insert
branch hands `save_tick_data` a dict, which raises and rolls back). -/
theorem claimC2 (t : RiskThresholds) (today : MDate) (store : List Row)
    (nid : Nat) (item : Dict) (items : List Dict) :
    (∀ ex : Row, validate_data_item today item = true →
        get_tick_data_by_url store (dictGet item "url" .vnone) = some ex →
        process_item t today (store, nid) item =
          (update_tick_data store ex.id item, nid)) ∧
    (urlUnique store →
        urlUnique (update_all_data_saves t today (store, nid) items).1) ∧
    (update_all_data_saves t today (store, nid) items).1.length
        = store.length := by
  refine ⟨?_, ?_, ?_⟩
  · intro ex hv hg
    unfold process_item
    dsimp only
    have hv2 : ¬((!validate_data_item today item) = true) := by simp [hv]
    rw [if_neg hv2, hg]
  · exact (process_fold_inv t today items store nid).2
  · exact (process_fold_inv t today items store nid).1

/-- Witness for claimC2: the concrete candidate is accepted by the
validator, dedup-updates the matching row, and the one-row store stays
url-unique with unchanged length. -/
theorem claimC2_witness :
    process_item defaultThresholds ⟨2026, 10, 12⟩ ([c2ExRow], 2) c2Item
        = (update_tick_data [c2ExRow] 1 c2Item, 2) ∧
    urlUnique (update_all_data_saves defaultThresholds ⟨2026, 10, 12⟩
        ([c2ExRow], 2) [c2Item]).1 ∧
    (update_all_data_saves defaultThresholds ⟨2026, 10, 12⟩
        ([c2ExRow], 2) [c2Item]).1.length = 1 := by
  refine ⟨?_, ?_, ?_⟩
  · exact (claimC2 defaultThresholds ⟨2026, 10, 12⟩ [c2ExRow] 2 c2Item
      []).1 c2ExRow (by decide) rfl
  · refine (claimC2 defaultThresholds ⟨2026, 10, 12⟩ [c2ExRow] 2 c2Item
      [c2Item]).2.1 ?_
    unfold urlUnique
    simp
  · exact (claimC2 defaultThresholds ⟨2026, 10, 12⟩ [c2ExRow] 2 c2Item
      [c2Item]).2.2

/-! ### Claim C3: forecaster totality and fallback -/

/-- `prepare_data` fails when fewer than 8 weekly buckets survive. -/
theorem prepare_data_none_buckets (hist : List HRow)
    (h : (isoWeeklyAgg (hist.map
        (fun r => { r with cases := max r.cases 0 }))).length < 8) :
    prepare_data hist = none := by
  unfold prepare_data
  split
  · rfl
  · dsimp only
    rw [if_pos h]

/-- `prepare_data` fails on an all-zero weekly series. -/
theorem prepare_data_none_zero (hist : List HRow)
    (h : ((isoWeeklyAgg (hist.map
        (fun r => { r with cases := max r.cases 0 }))).map
          (fun b => b.cases)).sum = 0) :
    prepare_data hist = none := by
  by_cases h10 : hist.length < 10
  · unfold prepare_data
    rw [if_pos h10]
  · by_cases h8 : (isoWeeklyAgg (hist.map
        (fun r => { r with cases := max r.cases 0 }))).length < 8
    · exact prepare_data_none_buckets hist h8
    · unfold prepare_data
      rw [if_neg h10]
      dsimp only
      rw [if_neg h8, if_pos h]

/-- `train_model` fails whenever `prepare_data` does. -/
theorem train_model_none_of_prep (env : MLEnv) (hist : List HRow)
    (h : prepare_data hist = none) : train_model env hist = none := by
  unfold train_model
  split
  · rfl
  · rw [h]

/-- With no pre-trained regressor and failed training, the predictor
returns the baseline. -/
theorem predict_eq_simple_of (env : MLEnv) (hist : List HRow) (k : Nat)
    (ht : env.trained = none) (hm : train_model env hist = none) :
    predict_next_weeks env hist k = simple_predict hist k := by
  unfold predict_next_weeks predict_next_weeks_checked predict_try_body
  rw [ht]
  dsimp only
  rw [hm]
  dsimp only
  by_cases hs : (!env.sklearn) = true
  · rw [if_pos hs]
  · rw [if_neg hs]

/-- An empty history always forecasts the empty list. -/
theorem predict_nil (env : MLEnv) (k : Nat) :
    predict_next_weeks env [] k = [] := by
  unfold predict_next_weeks predict_next_weeks_checked predict_try_body
  cases henv : env.trained with
  | some m =>
      dsimp only
      by_cases hs : (!env.sklearn) = true
      · rw [if_pos hs]; rfl
      · rw [if_neg hs]; rfl
  | none =>
      dsimp only
      have hm : train_model env [] = none := by
        unfold train_model
        split
        · rfl
        · rfl
      rw [hm]
      dsimp only
      by_cases hs : (!env.sklearn) = true
      · rw [if_pos hs]; rfl
      · rw [if_neg hs]; rfl

/-- Claim C3: the forecaster is total.  `predict_next_weeks` and
`get_forecast_for_2026` never surface an exception; with no usable
regressor and unmet prerequisites (fewer than 8 weekly buckets after
negative-clamping, or an all-zero weekly series) the baseline
extrapolation is returned, and an empty history yields the empty
sequence on every path (src/src/ml_predictor.py:302-378,413-456). -/
theorem claimC3 (env : MLEnv) (today : MDate) (hist : List HRow) (k : Nat) :
    (∀ e, predict_next_weeks_checked env hist k ≠ Except.error e) ∧
    (∀ e, get_forecast_for_2026_checked env today hist ≠ Except.error e) ∧
    (env.trained = none →
      (isoWeeklyAgg (hist.map
          (fun r => { r with cases := max r.cases 0 }))).length < 8 →
      predict_next_weeks env hist k = simple_predict hist k) ∧
    (env.trained = none →
      ((isoWeeklyAgg (hist.map
          (fun r => { r with cases := max r.cases 0 }))).map
            (fun b => b.cases)).sum = 0 →
      predict_next_weeks env hist k = simple_predict hist k) ∧
    (hist = [] →
      predict_next_weeks env hist k = [] ∧ simple_predict hist k = [] ∧
      get_forecast_for_2026 env today hist = []) := by
  refine ⟨?_, ?_, ?_, ?_, ?_⟩
  · intro e
    unfold predict_next_weeks_checked
    split
    · intro h; exact Except.noConfusion h
    · split
      · intro h; exact Except.noConfusion h
      · intro h; exact Except.noConfusion h
  · intro e
    unfold get_forecast_for_2026_checked
    split
    · intro h; exact Except.noConfusion h
    · intro h; exact Except.noConfusion h
  · intro ht h
    exact predict_eq_simple_of env hist k ht
      (train_model_none_of_prep env hist (prepare_data_none_buckets hist h))
  · intro ht h
    exact predict_eq_simple_of env hist k ht
      (train_model_none_of_prep env hist (prepare_data_none_zero hist h))
  · intro h
    subst h
    exact ⟨predict_nil env k, rfl, rfl⟩

/-- Witness for claimC3: a one-row history falls back to the baseline
and an empty history forecasts nothing. -/
theorem claimC3_witness :
    predict_next_weeks ⟨true, false, none, none⟩ [⟨⟨2026, 6, 1⟩, 5⟩] 3
        = simple_predict [⟨⟨2026, 6, 1⟩, 5⟩] 3 ∧
    predict_next_weeks ⟨true, false, none, none⟩ [] 2 = [] := by
  constructor
  · exact (claimC3 ⟨true, false, none, none⟩ ⟨2026, 10, 12⟩
      [⟨⟨2026, 6, 1⟩, 5⟩] 3).2.2.1 rfl (by decide)
  · exact ((claimC3 ⟨true, false, none, none⟩ ⟨2026, 10, 12⟩ [] 2).2.2.2.2
      rfl).1

/-! ### Claim C7: shape of the predict_next_weeks output -/

/-- The regressor `predict_next_weeks` ends up using: the cached fit
when present, else the result of on-demand training
(src/src/ml_predictor.py:309-313). -/
def effectiveModel (env : MLEnv) (hist : List HRow) :
    Option (List Int → Int) :=
  match env.trained with
  | some m => some m
  | none => train_model env hist

/-- The history used by the C7 counterexample: nine Monday-dated weekly
records through 2024-05-27 plus one mid-week record on Wednesday
2024-05-29 (the latest record, in the same ISO week as 05-27). -/
def c7Hist : List HRow :=
  [⟨⟨2024, 4, 1⟩, 1⟩, ⟨⟨2024, 4, 8⟩, 1⟩, ⟨⟨2024, 4, 15⟩, 1⟩,
   ⟨⟨2024, 4, 22⟩, 1⟩, ⟨⟨2024, 4, 29⟩, 1⟩, ⟨⟨2024, 5, 6⟩, 1⟩,
   ⟨⟨2024, 5, 13⟩, 1⟩, ⟨⟨2024, 5, 20⟩, 1⟩, ⟨⟨2024, 5, 27⟩, 1⟩,
   ⟨⟨2024, 5, 29⟩, 2⟩]

/-- The deployed environment: scikit-learn and the enhanced-ML modules
import, nothing is pre-trained (`_train_enhanced_models` is undefined,
so training always raises and is caught). -/
def c7Env : MLEnv := ⟨true, true, none, none⟩

/-- One unrolling of the forecast loop. -/
theorem genFPs_succ (m : List Int → Int) (lastDate : MDate)
    (cur : List Int) (i n : Nat) :
    genFPs m lastDate cur i (n + 1) =
      { date := lastDate.addDays (7 * (i + 1)),
        cases := max 0 (m (takeRight 4 cur)), week_number := i + 1 }
        :: genFPs m lastDate (cur ++ [max 0 (m (takeRight 4 cur))])
            (i + 1) n := rfl

/-- Shape of the forecast loop output: `rem` points, non-negative cases,
dates in weekly steps from the base date. -/
theorem genFPs_spec (m : List Int → Int) (lastDate : MDate) :
    ∀ (rem : Nat) (cur : List Int) (i : Nat),
      (genFPs m lastDate cur i rem).length = rem ∧
      (∀ p ∈ genFPs m lastDate cur i rem, 0 ≤ p.cases) ∧
      (genFPs m lastDate cur i rem).map (fun p => p.date)
        = (List.range rem).map (fun j => lastDate.addDays (7 * (i + j + 1))) := by
  intro rem
  induction rem with
  | zero =>
      intro cur i
      exact ⟨rfl, fun p hp => absurd hp (List.not_mem_nil _), rfl⟩
  | succ n ih =>
      intro cur i
      obtain ⟨ihl, ihn, ihm⟩ := ih (cur ++ [max 0 (m (takeRight 4 cur))]) (i + 1)
      rw [genFPs_succ]
      refine ⟨?_, ?_, ?_⟩
      · rw [List.length_cons, ihl]
      · intro p hp
        rcases List.mem_cons.mp hp with h1 | h1
        · rw [h1]; exact le_max_left _ _
        · exact ihn p h1
      · rw [List.map_cons, ihm, List.range_succ_eq_map, List.map_cons,
          List.map_map]
        congr 1
        apply List.map_congr_left
        intro j _
        dsimp only [Function.comp]
        congr 1
        omega

/-- Exact rational mean of non-negative ints is non-negative. -/
theorem ratMean_nonneg {l : List Int} (h : ∀ x ∈ l, 0 ≤ x) :
    0 ≤ ratMean l := by
  unfold ratMean
  apply div_nonneg
  · have hs : (0 : Int) ≤ l.sum := List.sum_nonneg h
    exact_mod_cast hs
  · exact Nat.cast_nonneg _

/-- Python `int()` truncation keeps non-negativity. -/
theorem pyInt_nonneg {q : ℚ} (h : 0 ≤ q) : 0 ≤ pyInt q := by
  unfold pyInt
  exact Int.tdiv_nonneg (Rat.num_nonneg.mpr h) (Int.ofNat_nonneg _)

/-- Closed form of the baseline on a non-empty history. -/
theorem simple_predict_eq (hist : List HRow) (k : Nat)
    (hne : hist.isEmpty = false) :
    simple_predict hist k = (List.range k).map (fun i =>
      { date := (listMaxDate (hist.map (fun r => r.date))).addDays
          (7 * (i + 1)),
        cases := pyInt (ratMean ((takeRight 56 (List.insertionSort
            (fun a b => a.date.leB b.date = true) hist)).map
              (fun r => r.cases))),
        week_number := i + 1 }) := by
  have h2 : ¬(hist.isEmpty = true) := by simp [hne]
  unfold simple_predict
  rw [if_neg h2]

/-- A bucket's `start_date` is one of the grouped rows' dates, hence
well-formed over a well-formed record set. -/
theorem groupRows_start_wf {key : MDate → Nat × Nat} {rows : List HRow}
    (hwf : ∀ r ∈ rows, r.date.WellFormed) {b : WeekBucket}
    (hb : b ∈ groupRows key rows) : b.start_date.WellFormed := by
  obtain ⟨⟨r, hr, hrk⟩, _, hstart, _⟩ := groupRows_sound hb
  have hrg : r ∈ rows.filter (fun r2 => key r2.date == b.key) := by
    rw [List.mem_filter]
    exact ⟨hr, by simp [hrk]⟩
  have hne : (rows.filter (fun r2 => key r2.date == b.key)).map
      (fun x => x.date) ≠ [] :=
    List.ne_nil_of_mem (List.mem_map_of_mem _ hrg)
  have hmem := listMinDate_mem hne
  rw [List.mem_map] at hmem
  obtain ⟨r2, hr2, he2⟩ := hmem
  rw [hstart, ← he2]
  exact hwf r2 (List.mem_filter.mp hr2).1

/-- The base date of the model path (last bucket's min date) is
well-formed. -/
theorem isoAgg_lastStart_wf {hist : List HRow}
    (hwf : ∀ r ∈ hist, r.date.WellFormed)
    (hne : isoWeeklyAgg hist ≠ []) :
    ((((isoWeeklyAgg hist).map
        (fun x : WeekBucket => x.start_date)).getLast?).getD
          ⟨1970, 1, 1⟩).WellFormed := by
  cases hl : ((isoWeeklyAgg hist).map
      (fun x : WeekBucket => x.start_date)).getLast? with
  | none =>
      rw [List.getLast?_eq_none_iff, List.map_eq_nil_iff] at hl
      exact absurd hl hne
  | some d =>
      have hd := List.mem_of_mem_getLast? hl
      rw [List.mem_map] at hd
      obtain ⟨b, hbm, he⟩ := hd
      have hbm2 : b ∈ List.insertionSort
          (fun a b : WeekBucket => a.start_date.leB b.start_date = true)
          (groupRows (fun d => (d.year, d.isoWeek)) hist) := hbm
      have hb2 : b ∈ groupRows (fun d => (d.year, d.isoWeek)) hist :=
        (List.Perm.mem_iff (List.perm_insertionSort _ _)).mp hbm2
      have hw := groupRows_start_wf hwf hb2
      rw [he] at hw
      exact hw

/-- `predict_next_weeks` takes exactly one of two shapes: the baseline,
or the model loop based at the last bucket's min date. -/
theorem predict_paths (env : MLEnv) (hist : List HRow) (k : Nat)
    (h8 : 8 ≤ (isoWeeklyAgg hist).length) :
    ((env.sklearn = false ∨ effectiveModel env hist = none) ∧
      predict_next_weeks env hist k = simple_predict hist k) ∨
    (∃ m, env.sklearn = true ∧ effectiveModel env hist = some m ∧
      predict_next_weeks env hist k =
        genFPs m (((isoWeeklyAgg hist).map
            (fun x => x.start_date)).getLast?.getD ⟨1970, 1, 1⟩)
          (takeRight 4 ((isoWeeklyAgg hist).map (fun x => x.cases))) 0 k) := by
  have hne : hist.isEmpty = false := by
    cases hh : hist with
    | nil => rw [hh] at h8; exact absurd h8 (by decide)
    | cons a l => rfl
  by_cases hs : (!env.sklearn) = true
  · left
    have hsf : env.sklearn = false := by
      revert hs; cases env.sklearn <;> simp
    refine ⟨Or.inl hsf, ?_⟩
    unfold predict_next_weeks predict_next_weeks_checked
    rw [if_pos hs]
  · have hst : env.sklearn = true := by
      revert hs; cases env.sklearn <;> simp
    cases hm : effectiveModel env hist with
    | none =>
        left
        refine ⟨Or.inr rfl, ?_⟩
        unfold effectiveModel at hm
        unfold predict_next_weeks predict_next_weeks_checked predict_try_body
        rw [if_neg hs]
        dsimp only
        rw [hm]
    | some m =>
        right
        refine ⟨m, hst, rfl, ?_⟩
        unfold effectiveModel at hm
        unfold predict_next_weeks predict_next_weeks_checked predict_try_body
        rw [if_neg hs]
        dsimp only
        rw [hm]
        dsimp only
        have h2 : ¬(hist.isEmpty = true) := by simp [hne]
        rw [if_neg h2]
        have h4 : ¬((isoWeeklyAgg hist).length < 4) := by omega
        rw [if_neg h4]

set_option maxHeartbeats 2000000 in
/-- C7 counterexample: on the deployed configuration (enhanced modules
present, so training always fails and the baseline runs) the first
forecast date is one week after the latest *record* date 2024-05-29,
namely 2024-06-05, while one week after the last weekly bucket's date
2024-05-27 is 2024-06-03 — the claimed first-date property fails. -/
theorem claimC7_counterexample :
    8 ≤ (isoWeeklyAgg c7Hist).length ∧
    ((isoWeeklyAgg c7Hist).map (fun x => x.start_date)).getLast?
        = some ⟨2024, 5, 27⟩ ∧
    (predict_next_weeks c7Env c7Hist 2).map (fun p => p.date)
        = [⟨2024, 6, 5⟩, ⟨2024, 6, 12⟩] ∧
    (⟨2024, 5, 27⟩ : MDate).addDays 7 = ⟨2024, 6, 3⟩ ∧
    (⟨2024, 6, 5⟩ : MDate) ≠ ⟨2024, 6, 3⟩ := by
  refine ⟨by decide, by decide, by decide, by decide, by decide⟩

set_option maxHeartbeats 2000000 in
/-- Claim C7 (corrected): with at least 8 weekly buckets,
`predict_next_weeks` returns exactly `k` points with non-negative cases
and dates in strictly increasing exact 7-day steps from a well-formed
base date — but the base is the last bucket's min date only on the
model path; on the baseline path (which the deployed configuration
always takes) it is the latest record date
(src/src/ml_predictor.py:334-371, 380-411). -/
theorem claimC7 (env : MLEnv) (hist : List HRow) (k : Nat)
    (h8 : 8 ≤ (isoWeeklyAgg hist).length)
    (hwf : ∀ r ∈ hist, r.date.WellFormed)
    (hnn : ∀ r ∈ hist, 0 ≤ r.cases) :
    ∃ base : MDate, base.WellFormed ∧
      (env.sklearn = true → effectiveModel env hist ≠ none →
        base = ((isoWeeklyAgg hist).map
          (fun x => x.start_date)).getLast?.getD ⟨1970, 1, 1⟩) ∧
      ((env.sklearn = false ∨ effectiveModel env hist = none) →
        base = listMaxDate (hist.map (fun r => r.date))) ∧
      (predict_next_weeks env hist k).length = k ∧
      (∀ p ∈ predict_next_weeks env hist k, 0 ≤ p.cases) ∧
      (predict_next_weeks env hist k).map (fun p => p.date)
        = (List.range k).map (fun i => base.addDays (7 * (i + 1))) ∧
      (∀ i j, i < j → j < k →
        (base.addDays (7 * (i + 1))).ltB (base.addDays (7 * (j + 1)))
          = true) := by
  have hne : hist ≠ [] := by
    intro hh
    rw [hh] at h8
    exact absurd h8 (by decide)
  have hne2 : hist.isEmpty = false := by
    cases hh : hist with
    | nil => exact absurd hh hne
    | cons a l => rfl
  have hstrict : ∀ base : MDate, base.WellFormed → ∀ i j : Nat, i < j →
      (base.addDays (7 * (i + 1))).ltB (base.addDays (7 * (j + 1)))
        = true := by
    intro base hb i j hij
    have h1 := MDate.lt_addDays (MDate.wf_addDays hb (7 * (i + 1)))
      (7 * (j - i) - 1)
    have he : 7 * (j - i) - 1 + 1 = 7 * (j - i) := by omega
    rw [he, MDate.addDays_addDays] at h1
    have he2 : 7 * (j - i) + 7 * (i + 1) = 7 * (j + 1) := by omega
    rw [he2] at h1
    exact h1
  rcases predict_paths env hist k h8 with ⟨hcond, hp⟩ | ⟨m, hst, hm, hp⟩
  · have hbW : (listMaxDate (hist.map (fun r => r.date))).WellFormed := by
      have hmm := listMaxDate_mem (l := hist.map (fun r => r.date)) (by
        intro hx
        rw [List.map_eq_nil_iff] at hx
        exact hne hx)
      rw [List.mem_map] at hmm
      obtain ⟨r, hr, he⟩ := hmm
      rw [← he]
      exact hwf r hr
    refine ⟨listMaxDate (hist.map (fun r => r.date)), hbW, ?_, ?_, ?_, ?_,
      ?_, ?_⟩
    · intro h1 h2
      rcases hcond with hc | hc
      · rw [h1] at hc
        exact Bool.noConfusion hc
      · exact absurd hc h2
    · exact fun _ => rfl
    · rw [hp, simple_predict_eq hist k hne2, List.length_map,
        List.length_range]
    · intro p hpm
      rw [hp, simple_predict_eq hist k hne2] at hpm
      rw [List.mem_map] at hpm
      obtain ⟨i, hi, he⟩ := hpm
      rw [← he]
      dsimp only
      apply pyInt_nonneg
      apply ratMean_nonneg
      intro x hx
      rw [List.mem_map] at hx
      obtain ⟨r, hr, hex⟩ := hx
      rw [← hex]
      have hr2 : r ∈ List.insertionSort
          (fun a b => a.date.leB b.date = true) hist :=
        List.drop_subset _ _ hr
      exact hnn r ((List.Perm.mem_iff (List.perm_insertionSort _ _)).mp hr2)
    · rw [hp, simple_predict_eq hist k hne2, List.map_map]
      apply List.map_congr_left
      intro i _
      rfl
    · exact fun i j hij _ => hstrict _ hbW i j hij
  · have hbW := isoAgg_lastStart_wf hwf (by
      intro hx
      rw [hx] at h8
      exact absurd h8 (by decide))
    refine ⟨((isoWeeklyAgg hist).map
        (fun x => x.start_date)).getLast?.getD ⟨1970, 1, 1⟩, hbW,
      ?_, ?_, ?_, ?_, ?_, ?_⟩
    · exact fun _ _ => rfl
    · intro hc
      rcases hc with hc | hc
      · rw [hst] at hc
        exact Bool.noConfusion hc
      · rw [hm] at hc
        exact Option.noConfusion hc
    · rw [hp, (genFPs_spec m _ k _ 0).1]
    · intro p hpm
      rw [hp] at hpm
      exact (genFPs_spec m _ k _ 0).2.1 p hpm
    · rw [hp, (genFPs_spec m _ k _ 0).2.2]
      apply List.map_congr_left
      intro j _
      rw [Nat.zero_add]
    · exact fun i j hij _ => hstrict _ hbW i j hij

set_option maxHeartbeats 2000000 in
/-- Witness for claimC7: the concrete deployed run returns exactly the
requested two points. -/
theorem claimC7_witness :
    (predict_next_weeks c7Env c7Hist 2).length = 2 := by
  obtain ⟨base, hbW, hA, hB, hlen, hnn, hmap, hlt⟩ :=
    claimC7 c7Env c7Hist 2 (by decide) (by decide) (by decide)
  exact hlen
